import Mathlib

/-!
Verification development for the simulation core of a turn-based grid
roguelike (Rust source: `gamemap.rs`, `pathfinding.rs`, `los.rs`,
`engine.rs`, `app/procgen.rs`, `app/saving.rs`, `components.rs`,
`entities.rs`).

Shallow embedding conventions:
* `u16` / `u32` / `u64` / `usize` values are `Nat`; wrap-around is written
  explicitly (`% 2^16`, `% 2^32`) where the Rust arithmetic can wrap.
* `i16` / `i32` values are `Int`; Rust `as`-casts between signed and
  unsigned are modelled by the explicit functions below.
* A Rust `panic!` (including out-of-bounds indexing and `assert!`) is an
  `Option`/`none` result.
* Randomness (`rand::rng()`) is an oracle `Rng : Nat → Nat`, threaded by an
  explicit draw counter; `random_range(lo..=hi)` maps the next oracle value
  into the range and panics (`none`) when the range is empty, exactly as
  `rand` does.
-/

set_option maxRecDepth 8192
set_option linter.constructorNameAsVariable false
set_option linter.unusedVariables false

namespace Roguelike

/-- `u32::MAX`, the sentinel "unreached" distance of the pathfinder. -/
def u32MAX : Nat := 2 ^ 32 - 1

/-- `usize::MAX`, the initial contents of the predecessor array. -/
def usizeMAX : Nat := 2 ^ 64 - 1

/-- Rust `x as i16` for a `u16` value `x` (two's-complement reinterpretation). -/
def toI16 (n : Nat) : Int := ((n % 65536 : Nat) : Int) - (if n % 65536 < 32768 then 0 else 65536)

/-- Rust `i as u16` for an `i16`/`i32` value `i` (truncation mod 2^16). -/
def toU16 (i : Int) : Nat := (i % 65536).toNat

/-- `gamemap.rs::coords_to_idx`: flat index `x + y * width`. -/
def coords_to_idx (x y width : Nat) : Nat := x + y * width

/-- `gamemap.rs::idx_to_coords`: the Rust code first casts `idx as u16`
(truncation mod 2^16), then takes `(idx % width, idx / width)`. -/
def idx_to_coords (idx width : Nat) : Nat × Nat :=
  let i := idx % 65536
  (i % width, i / width)

/-- `gamemap.rs::TileType`. -/
inductive TileType where
  | Floor
  | Wall
deriving DecidableEq, Repr

/-- Subset of `ratatui::style::Color` values used by the sources. -/
inductive Color where
  | reset
  | gray
  | red
  | yellow
  | green
  | blue
deriving DecidableEq, Repr

/-- `components.rs::Renderable`. -/
structure Renderable where
  glyph : Char
  fg : Color
  bg : Color
deriving DecidableEq, Repr

/-- `components.rs::Position`. -/
structure Position where
  x : Nat
  y : Nat
deriving DecidableEq, Repr

/-- `gamemap.rs::Tile`. -/
structure Tile where
  tile_type : TileType
  item : Option Nat
  blocker : Option Nat
deriving DecidableEq, Repr

/-- `Tile::new`. -/
def Tile.mkNew (t : TileType) : Tile := ⟨t, none, none⟩

/-- `Tile::is_walkable`. -/
def Tile.is_walkable (t : Tile) : Bool :=
  match t.tile_type with
  | .Floor => true
  | .Wall => false

/-- `Tile::is_transparent`. -/
def Tile.is_transparent (t : Tile) : Bool :=
  match t.tile_type with
  | .Floor => true
  | .Wall => false

/-- The id-to-position store of the map (`objects: HashMap<usize, Position>`),
modelled as an association list; `insert` replaces an existing binding,
`remove` deletes it, mirroring `HashMap::insert` / `HashMap::remove`. -/
def ObjStore : Type := List (Nat × Position)

/-- `HashMap::insert` (replace-or-add). -/
def ObjStore.insert (s : ObjStore) (id : Nat) (p : Position) : ObjStore :=
  (id, p) :: (List.filter (fun e => decide (e.1 ≠ id)) s)

/-- `HashMap::remove`. -/
def ObjStore.remove (s : ObjStore) (id : Nat) : ObjStore :=
  List.filter (fun e => decide (e.1 ≠ id)) s

/-- `HashMap::get`. -/
def ObjStore.lookup (s : ObjStore) (id : Nat) : Option Position :=
  match s with
  | [] => none
  | (k, p) :: rest => if k = id then some p else ObjStore.lookup rest id

/-- `gamemap.rs::GameMap`. -/
structure GameMap where
  width : Nat
  height : Nat
  level : Nat
  tiles : List Tile
  visible : List Bool
  explored : List Bool
  last_seen : List Renderable
  objects : ObjStore

/-- `Renderable::default`. -/
def Renderable.defaultVal : Renderable := ⟨'_', Color.reset, Color.reset⟩

/-- `GameMap::new`: an all-wall map with empty parallel arrays and no objects. -/
def GameMap.mkNew (width height level : Nat) : GameMap :=
  { width := width
    height := height
    level := level
    tiles := List.replicate (width * height) (Tile.mkNew .Wall)
    visible := List.replicate (width * height) false
    explored := List.replicate (width * height) false
    last_seen := List.replicate (width * height) Renderable.defaultVal
    objects := [] }

/-- `GameMap::get_ref`, as the tile read `tiles[coords_to_idx x y width]`.
The Rust indexing panics when the flat index is out of range; the theorems
below only use this at indices that are in range, where `getD`'s default is
never consulted. -/
def GameMap.tileAt (m : GameMap) (x y : Nat) : Tile :=
  m.tiles.getD (coords_to_idx x y m.width) (Tile.mkNew .Wall)

/-- `GameMap::in_bounds` (arguments are `i16` in Rust; `width as i16` and
`height as i16` are wrapping casts). -/
def GameMap.in_bounds (m : GameMap) (x y : Int) : Bool :=
  0 ≤ x && x < toI16 m.width && 0 ≤ y && y < toI16 m.height

/-- `GameMap::get_position`. -/
def GameMap.get_position (m : GameMap) (id : Nat) : Option Position :=
  m.objects.lookup id

/-- `GameMap::place_blocker`: succeeds only on a walkable, blocker-free tile;
the Rust code panics otherwise (`none` here).  A flat index outside the tile
array (a Rust indexing panic) is also `none`. -/
def GameMap.place_blocker (m : GameMap) (id x y : Nat) : Option GameMap :=
  match m.tiles.get? (coords_to_idx x y m.width) with
  | none => none
  | some t =>
    if t.is_walkable && t.blocker.isNone then
      some { m with
              tiles := m.tiles.set (coords_to_idx x y m.width) { t with blocker := some id }
              objects := m.objects.insert id ⟨x, y⟩ }
    else
      none

/-- `GameMap::place_item`: succeeds only on a walkable, item-free tile;
panics (`none`) otherwise. -/
def GameMap.place_item (m : GameMap) (id x y : Nat) : Option GameMap :=
  match m.tiles.get? (coords_to_idx x y m.width) with
  | none => none
  | some t =>
    if t.is_walkable && t.item.isNone then
      some { m with
              tiles := m.tiles.set (coords_to_idx x y m.width) { t with item := some id }
              objects := m.objects.insert id ⟨x, y⟩ }
    else
      none

/-- `GameMap::remove_blocker`: returns the removed id, panics (`none`) when
no blocker is present. -/
def GameMap.remove_blocker (m : GameMap) (x y : Nat) : Option (GameMap × Nat) :=
  match m.tiles.get? (coords_to_idx x y m.width) with
  | none => none
  | some t =>
    match t.blocker with
    | some id =>
      some ({ m with
               tiles := m.tiles.set (coords_to_idx x y m.width) { t with blocker := none }
               objects := m.objects.remove id }, id)
    | none => none

/-- `GameMap::remove_item`: returns the removed id, panics (`none`) when no
item is present. -/
def GameMap.remove_item (m : GameMap) (x y : Nat) : Option (GameMap × Nat) :=
  match m.tiles.get? (coords_to_idx x y m.width) with
  | none => none
  | some t =>
    match t.item with
    | some id =>
      some ({ m with
               tiles := m.tiles.set (coords_to_idx x y m.width) { t with item := none }
               objects := m.objects.remove id }, id)
    | none => none

/-- `u16::abs_diff`. -/
def absDiff (a b : Nat) : Nat := max (a - b) (b - a)

/-- `gamemap.rs::ITEM_DROP_RADIUS`. -/
def ITEM_DROP_RADIUS : Nat := 2


/-- Coordinate pairs as `(u16, u16)` values: the visited set of
`area_place_item`'s breadth-first search holds `u16` pairs, so it can never
exceed `65536 * 65536` elements, which bounds the search. -/
def vkey (p : Nat × Nat) : Fin 65536 × Fin 65536 :=
  (⟨p.1 % 65536, Nat.mod_lt _ (by norm_num)⟩, ⟨p.2 % 65536, Nat.mod_lt _ (by norm_num)⟩)

/-- One pass of `area_place_item`'s neighbour loop: for each direction (in the
shuffled order), skip out-of-bounds and already-visited cells, otherwise mark
visited and push onto the back of the queue. -/
def bfsExpand (m : GameMap) : List (Int × Int) → (Nat × Nat) →
    Finset (Fin 65536 × Fin 65536) × List (Nat × Nat) →
    Finset (Fin 65536 × Fin 65536) × List (Nat × Nat)
  | [], _, vq => vq
  | d :: rest, cur, vq =>
    bfsExpand m rest cur
      (if m.in_bounds (toI16 cur.1 + d.1) (toI16 cur.2 + d.2) then
        if vkey (toU16 (toI16 cur.1 + d.1), toU16 (toI16 cur.2 + d.2)) ∈ vq.1 then vq
        else (insert (vkey (toU16 (toI16 cur.1 + d.1), toU16 (toI16 cur.2 + d.2))) vq.1,
              vq.2 ++ [(toU16 (toI16 cur.1 + d.1), toU16 (toI16 cur.2 + d.2))])
      else vq)

/-- The number of `(u16, u16)` pairs, kept symbolic (never compared with a
numeral, which would force a huge definitional unfolding). -/
def U16SQ : Nat := Fintype.card (Fin 65536 × Fin 65536)

theorem card_le_u16sq (s : Finset (Fin 65536 × Fin 65536)) : s.card ≤ U16SQ := by
  unfold U16SQ
  exact Finset.card_le_univ s

theorem bfsExpand_spec (m : GameMap) (dirs : List (Int × Int)) (cur : Nat × Nat)
    (vq : Finset (Fin 65536 × Fin 65536) × List (Nat × Nat)) :
    (U16SQ + 1 - (bfsExpand m dirs cur vq).1.card) + (bfsExpand m dirs cur vq).2.length
      = (U16SQ + 1 - vq.1.card) + vq.2.length := by
  induction dirs generalizing vq with
  | nil => rfl
  | cons d rest ih =>
    rw [bfsExpand]
    by_cases hib : m.in_bounds (toI16 cur.1 + d.1) (toI16 cur.2 + d.2)
    · rw [if_pos hib]
      by_cases hmem : vkey (toU16 (toI16 cur.1 + d.1), toU16 (toI16 cur.2 + d.2)) ∈ vq.1
      · rw [if_pos hmem]
        exact ih vq
      · rw [if_neg hmem]
        have hres := ih (insert (vkey (toU16 (toI16 cur.1 + d.1), toU16 (toI16 cur.2 + d.2))) vq.1,
          vq.2 ++ [(toU16 (toI16 cur.1 + d.1), toU16 (toI16 cur.2 + d.2))])
        rw [hres]
        have hcard : (insert (vkey (toU16 (toI16 cur.1 + d.1), toU16 (toI16 cur.2 + d.2))) vq.1).card
            = vq.1.card + 1 := Finset.card_insert_of_not_mem hmem
        have hle := card_le_u16sq (insert (vkey (toU16 (toI16 cur.1 + d.1),
          toU16 (toI16 cur.2 + d.2))) vq.1)
        simp only [hcard, List.length_append, List.length_cons, List.length_nil]
        omega
    · rw [if_neg hib]
      exact ih vq

/-- The breadth-first search loop of `GameMap::area_place_item`: pop the queue
front; skip cells farther than `ITEM_DROP_RADIUS` (Chebyshev distance from the
start) and non-walkable cells; drop the item on the first cell with a free item
slot; otherwise expand the four shuffled neighbours.  `shuffle k` is the oracle
for the `k`-th `dirs.shuffle` call; `none` models a Rust panic (out-of-range
tile indexing). -/
def area_place_item_loop (m : GameMap) (id : Nat) (start : Nat × Nat)
    (shuffle : Nat → List (Int × Int)) (k : Nat)
    (visited : Finset (Fin 65536 × Fin 65536)) (queue : List (Nat × Nat)) :
    Option (GameMap × Option Position) :=
  match queue with
  | [] => some (m, none)
  | cur :: rest =>
    if absDiff cur.1 start.1 ⊔ absDiff cur.2 start.2 > ITEM_DROP_RADIUS then
      area_place_item_loop m id start shuffle k visited rest
    else
      match m.tiles.get? (coords_to_idx cur.1 cur.2 m.width) with
      | none => none
      | some t =>
        if !t.is_walkable then
          area_place_item_loop m id start shuffle k visited rest
        else if t.item.isNone then
          match m.place_item id cur.1 cur.2 with
          | some m2 => some (m2, some ⟨cur.1, cur.2⟩)
          | none => none
        else
          area_place_item_loop m id start shuffle (k + 1)
            (bfsExpand m (shuffle k) cur (visited, rest)).1
            (bfsExpand m (shuffle k) cur (visited, rest)).2
termination_by (U16SQ + 1 - visited.card) + queue.length
decreasing_by
  · simp only [List.length_cons]
    omega
  · simp only [List.length_cons]
    omega
  · have h := bfsExpand_spec m (shuffle k) cur (visited, rest)
    simp only at h
    simp only [h, List.length_cons]
    omega

/-- `GameMap::area_place_item`. -/
def GameMap.area_place_item (m : GameMap) (x y id : Nat)
    (shuffle : Nat → List (Int × Int)) : Option (GameMap × Option Position) :=
  area_place_item_loop m id (x, y) shuffle 0 {vkey (x, y)} [(x, y)]

/-! ### `los.rs`: discrete line rasterization -/

/-- The `dx > dy` loop of `los.rs::bresenham` (`while x != x2`).  Each
iteration moves `x` by `stepx` toward `x2`, so the Rust loop runs exactly
`|x2 - x1|` times; the fuel makes that count explicit while the `x = x2`
exit test is kept verbatim. -/
def bresLoopX (stepx stepy dx dy x2 : Int) :
    Nat → Int → Int → Int → List (Int × Int) → List (Int × Int)
  | 0, _, _, _, path => path
  | fuel + 1, x, y, fraction, path =>
    if x = x2 then path
    else
      let x1 := x + stepx
      let y1 := if fraction ≥ 0 then y + stepy else y
      let f1 := if fraction ≥ 0 then fraction - 2 * dx else fraction
      bresLoopX stepx stepy dx dy x2 fuel x1 y1 (f1 + 2 * dy) (path ++ [(x1, y1)])

/-- The `dx <= dy` loop of `los.rs::bresenham` (`while y != y2`). -/
def bresLoopY (stepx stepy dx dy y2 : Int) :
    Nat → Int → Int → Int → List (Int × Int) → List (Int × Int)
  | 0, _, _, _, path => path
  | fuel + 1, x, y, fraction, path =>
    if y = y2 then path
    else
      let x1 := if fraction ≥ 0 then x + stepx else x
      let f1 := if fraction ≥ 0 then fraction - 2 * dy else fraction
      let y1 := y + stepy
      bresLoopY stepx stepy dx dy y2 fuel x1 y1 (f1 + 2 * dx) (path ++ [(x1, y1)])

/-- `los.rs::bresenham`.  Note the source computes `dx = (x2 - y1).abs()`
(mixing an x with a y coordinate), exactly as written. -/
def bresenham (p1 p2 : Int × Int) : List (Int × Int) :=
  let x1 := p1.1
  let y1 := p1.2
  let x2 := p2.1
  let y2 := p2.2
  let dx := |x2 - y1|
  let dy := |y2 - y1|
  let stepx : Int := if x2 - x1 > 0 then 1 else -1
  let stepy : Int := if y2 - y1 > 0 then 1 else -1
  if dx > dy then
    bresLoopX stepx stepy dx dy x2 (x2 - x1).natAbs x1 y1 (2 * dy - dx) [(x1, y1)]
  else
    bresLoopY stepx stepy dx dy y2 (y2 - y1).natAbs x1 y1 (2 * dx - dy) [(x1, y1)]

/-! ### `pathfinding.rs`: single-source weighted shortest paths -/

/-- `GameMap::in_bounds` reformulated on raw dimensions, as used by the
pathfinder (`engine.rs` passes `width`/`height` to `Pathfinder::new`). -/
def inBoundsWH (w h : Nat) (x y : Int) : Bool :=
  0 ≤ x && x < toI16 w && 0 ≤ y && y < toI16 h

/-- `pathfinding.rs::generate_simple_costs_array`: walkable tiles get cost 1,
tiles carrying a blocker get cost 5, everything else 0. -/
def generate_simple_costs_array (m : GameMap) : List Nat :=
  (List.range m.height).foldl
    (fun cs y =>
      (List.range m.width).foldl
        (fun cs x =>
          let cs1 := if (m.tileAt x y).is_walkable then cs.set (coords_to_idx x y m.width) 1 else cs
          if (m.tileAt x y).blocker.isSome then cs1.set (coords_to_idx x y m.width) 5 else cs1)
        cs)
    (List.replicate (m.height * m.width) 0)

/-- The cost array built inline by `engine.rs::handle_melee_ai` (walkable
tiles get `+= 1` on an all-zero array; occupancy is not consulted). -/
def melee_costs (m : GameMap) : List Nat :=
  (List.range m.height).foldl
    (fun cs y =>
      (List.range m.width).foldl
        (fun cs x =>
          if (m.tileAt x y).is_walkable then
            cs.set (coords_to_idx x y m.width) (cs.getD (coords_to_idx x y m.width) 0 + 1)
          else cs)
        cs)
    (List.replicate (m.height * m.width) 0)

/-- The mutable state of `Pathfinder::dijkstra`: distance array, predecessor
array, and the priority queue (entries `(cost, x, y)`). -/
structure DijkstraState where
  dists : List Nat
  prev : List Nat
  heap : List (Nat × Nat × Nat)
deriving DecidableEq, Repr

/-- Pop a least element (w.r.t. `le`) from a list, returning it and the
remaining elements.  Models `BinaryHeap<Reverse<_>>::pop`. -/
def popMinBy {α : Type} (le : α → α → Bool) : List α → Option (α × List α)
  | [] => none
  | a :: rest =>
    match popMinBy le rest with
    | none => some (a, [])
    | some (b, rest1) => if le a b then some (a, rest) else some (b, a :: rest1)

theorem popMinBy_isSome {α : Type} (le : α → α → Bool) (a : α) (l : List α) :
    (popMinBy le (a :: l)).isSome := by
  rw [popMinBy]
  cases popMinBy le l with
  | none => simp
  | some p => by_cases h : le a p.1 <;> simp [h]

theorem popMinBy_length {α : Type} (le : α → α → Bool) (l : List α) (m : α) (r : List α)
    (h : popMinBy le l = some (m, r)) : r.length + 1 = l.length := by
  induction l generalizing m r with
  | nil => simp [popMinBy] at h
  | cons a rest ih =>
    rw [popMinBy] at h
    cases hrec : popMinBy le rest with
    | none =>
      rw [hrec] at h
      cases rest with
      | nil =>
        simp at h
        simp [← h.2]
      | cons b t =>
        have hs := popMinBy_isSome le b t
        rw [hrec] at hs
        simp at hs
    | some p =>
      rw [hrec] at h
      by_cases hle : le a p.1
      · simp [hle] at h
        simp [← h.2]
      · simp [hle] at h
        have := ih p.1 p.2 (by rw [hrec])
        simp [← h.2, List.length_cons]
        omega

/-- The heap ordering of the Rust pathfinder: `Reverse((cost, (x, y)))` pops
the lexicographically least `(cost, x, y)` triple. -/
def tripLeB (a b : Nat × Nat × Nat) : Bool :=
  decide (a.1 < b.1 ∨ (a.1 = b.1 ∧ (a.2.1 < b.2.1 ∨ (a.2.1 = b.2.1 ∧ a.2.2 ≤ b.2.2))))

/-- The cardinal directions, then the diagonal ones, in the order the source
iterates them. -/
def dirs8 : List (Int × Int) :=
  [(1, 0), (0, 1), (-1, 0), (0, -1), (1, 1), (-1, 1), (1, -1), (-1, -1)]

/-- One relaxation attempt of `Pathfinder::dijkstra` for a single direction:
skip out-of-bounds targets and targets of cost 0 (`<= 0` on a `u32`);
otherwise compute `cost + costs[target] + step_cost` (wrapping `u32`
arithmetic) and store it if it improves the current distance, recording the
predecessor and pushing the target on the heap. -/
def relaxStep (w card diag : Nat) (h : Nat) (costs : List Nat) (c : Nat) (cur : Nat × Nat)
    (st : DijkstraState) (d : Int × Int) : DijkstraState :=
  let ix := toI16 cur.1 + d.1
  let iy := toI16 cur.2 + d.2
  if inBoundsWH w h ix iy then
    let tx := toU16 ix
    let ty := toU16 iy
    let tidx := coords_to_idx tx ty w
    if costs.getD tidx 0 = 0 then st
    else
      let step_cost := if d.1.natAbs + d.2.natAbs = 1 then card else diag
      let target := (c + costs.getD tidx 0 + step_cost) % 2 ^ 32
      if target < st.dists.getD tidx 0 then
        { dists := st.dists.set tidx target
          prev := st.prev.set tidx (coords_to_idx cur.1 cur.2 w)
          heap := (target, tx, ty) :: st.heap }
      else st
  else st

/-- The inner `for (dx, dy) in cardinal_dirs.iter().chain(diagonal_dirs.iter())`
loop of `Pathfinder::dijkstra`. -/
def relaxAll (w card diag : Nat) (h : Nat) (costs : List Nat) (c : Nat) (cur : Nat × Nat) :
    List (Int × Int) → DijkstraState → DijkstraState
  | [], st => st
  | d :: rest, st =>
    relaxAll w card diag h costs c cur rest (relaxStep w card diag h costs c cur st d)

theorem sum_set_lt (l : List Nat) (i v : Nat) (hv : v < l.getD i 0) :
    (l.set i v).sum < l.sum := by
  induction l generalizing i with
  | nil => simp [List.getD] at hv
  | cons a t ih =>
    cases i with
    | zero =>
      simp only [List.getD_cons_zero] at hv
      simp only [List.set_cons_zero, List.sum_cons]
      omega
    | succ j =>
      simp only [List.getD_cons_succ] at hv
      simp only [List.set_cons_succ, List.sum_cons]
      have := ih j hv
      omega

theorem relaxStep_dec (w card diag h : Nat) (costs : List Nat) (c : Nat) (cur : Nat × Nat)
    (st : DijkstraState) (d : Int × Int) :
    ((relaxStep w card diag h costs c cur st d).dists.sum < st.dists.sum) ∨
      relaxStep w card diag h costs c cur st d = st := by
  unfold relaxStep
  by_cases h1 : inBoundsWH w h (toI16 cur.1 + d.1) (toI16 cur.2 + d.2)
  · rw [if_pos h1]
    by_cases h2 : costs.getD (coords_to_idx (toU16 (toI16 cur.1 + d.1))
        (toU16 (toI16 cur.2 + d.2)) w) 0 = 0
    · rw [if_pos h2]
      exact Or.inr rfl
    · rw [if_neg h2]
      by_cases h3 : (c + costs.getD (coords_to_idx (toU16 (toI16 cur.1 + d.1))
            (toU16 (toI16 cur.2 + d.2)) w) 0 +
            if d.1.natAbs + d.2.natAbs = 1 then card else diag) % 2 ^ 32 <
          st.dists.getD (coords_to_idx (toU16 (toI16 cur.1 + d.1))
            (toU16 (toI16 cur.2 + d.2)) w) 0
      · rw [if_pos h3]
        exact Or.inl (sum_set_lt _ _ _ h3)
      · rw [if_neg h3]
        exact Or.inr rfl
  · rw [if_neg h1]
    exact Or.inr rfl

theorem relaxAll_dec (w card diag h : Nat) (costs : List Nat) (c : Nat) (cur : Nat × Nat)
    (dirs : List (Int × Int)) (st : DijkstraState) :
    ((relaxAll w card diag h costs c cur dirs st).dists.sum < st.dists.sum) ∨
      relaxAll w card diag h costs c cur dirs st = st := by
  induction dirs generalizing st with
  | nil => exact Or.inr rfl
  | cons d rest ih =>
    rw [relaxAll]
    rcases relaxStep_dec w card diag h costs c cur st d with hlt | heq
    · rcases ih (relaxStep w card diag h costs c cur st d) with h2 | h2
      · exact Or.inl (lt_trans h2 hlt)
      · rw [h2]
        exact Or.inl hlt
    · rw [heq]
      exact ih st

/-- The main loop of `Pathfinder::dijkstra`: pop the least `(cost, (x, y))`
entry; skip it when its cost is stale (greater than the recorded distance);
otherwise relax all eight neighbours.  Terminates because every relaxation
strictly decreases the distance array's sum and every pop shrinks the heap. -/
def dijkstraLoop (w h card diag : Nat) (costs : List Nat) (st : DijkstraState) :
    DijkstraState :=
  match hpop : popMinBy tripLeB st.heap with
  | none => st
  | some ((c, x, y), rest) =>
    if c > st.dists.getD (coords_to_idx x y w) 0 then
      dijkstraLoop w h card diag costs ⟨st.dists, st.prev, rest⟩
    else
      dijkstraLoop w h card diag costs
        (relaxAll w card diag h costs c (x, y) dirs8 ⟨st.dists, st.prev, rest⟩)
termination_by (st.dists.sum, st.heap.length)
decreasing_by
  · have hlen := popMinBy_length tripLeB st.heap _ _ hpop
    exact Prod.Lex.right _ (show rest.length < st.heap.length by omega)
  · have hlen := popMinBy_length tripLeB st.heap _ _ hpop
    rcases relaxAll_dec w card diag h costs c (x, y) dirs8 ⟨st.dists, st.prev, rest⟩ with hlt | heq
    · exact Prod.Lex.left _ _ hlt
    · rw [heq]
      exact Prod.Lex.right _ (show rest.length < st.heap.length by omega)

/-- `Pathfinder::dijkstra`, run at construction time: distances start at the
`u32::MAX` sentinel, predecessors at `usize::MAX`, and the heap holds
`(0, root)`.  Note the distance of the root itself is never initialised
to `0`. -/
def dijkstraRun (w h card diag : Nat) (costs : List Nat) (root : Nat × Nat) :
    DijkstraState :=
  dijkstraLoop w h card diag costs
    { dists := List.replicate costs.length u32MAX
      prev := List.replicate costs.length usizeMAX
      heap := [(0, root.1, root.2)] }

/-- The predecessor-walking loop of `Pathfinder::path_to` (`while cur != root`).
The successor of `cur` is a pure function of `cur`, so if any cell repeated
the Rust loop would run forever; a terminating run therefore visits distinct
cells, and after the first step every cell lies in the `u16 × u16` square
(`idx_to_coords` truncates to `u16`), so 65538 iterations exhaust every
terminating run.  `none` models the diverging loop. -/
def pathToWalk (w : Nat) (prev : List Nat) (root : Nat × Nat) :
    Nat → (Nat × Nat) → List (Nat × Nat) → Option (List (Nat × Nat))
  | 0, _, _ => none
  | fuel + 1, cur, acc =>
    if cur = root then some acc.reverse
    else
      pathToWalk w prev root fuel
        (idx_to_coords (prev.getD (coords_to_idx cur.1 cur.2 w) usizeMAX) w)
        (acc ++ [cur])

/-- `Pathfinder::path_to`: an unreached destination (distance still at the
`u32::MAX` sentinel) yields the single-element sentinel path `[(490, 490)]`;
otherwise walk predecessors back from `dest` and reverse, yielding the path
excluding the root and including `dest`. -/
def pathTo (w : Nat) (st : DijkstraState) (root dest : Nat × Nat) :
    Option (List (Nat × Nat)) :=
  if st.dists.getD (coords_to_idx dest.1 dest.2 w) 0 = u32MAX then
    some [(490, 490)]
  else
    pathToWalk w st.prev root 65538 dest []

/-- `pathfinding.rs::Pathfinder`, after construction.  `engine.rs` constructs
it as `Pathfinder::new(costs, root, width, height, cardinal, diagonal)`; the
constructor asserts `costs.len() == width * height` (`none` on failure) and
runs Dijkstra once. -/
structure Pathfinder where
  width : Nat
  height : Nat
  costs : List Nat
  root : Nat × Nat
  cardinal : Nat
  diagonal : Nat
  state : DijkstraState

/-- `Pathfinder::new`. -/
def Pathfinder.new (costs : List Nat) (root : Nat × Nat) (w h card diag : Nat) :
    Option Pathfinder :=
  if costs.length = w * h then
    some ⟨w, h, costs, root, card, diag, dijkstraRun w h card diag costs root⟩
  else
    none

/-- `Pathfinder::path_to` on a constructed pathfinder. -/
def Pathfinder.path_to (pf : Pathfinder) (dest : Nat × Nat) : Option (List (Nat × Nat)) :=
  pathTo pf.width pf.state pf.root dest

/-! ### `components.rs` -/

/-- `components.rs::MeleeAIData`. -/
structure MeleeAIData where
  target : Option Nat
  last_seen_time : Option Nat
  move_speed : Nat
  attack_speed : Nat
deriving DecidableEq, Repr

/-- `MeleeAIData::new`. -/
def MeleeAIData.mkNew : MeleeAIData := ⟨none, none, 100, 100⟩

/-- `MeleeAIData::set_move_speed`. -/
def MeleeAIData.set_move_speed (d : MeleeAIData) (v : Nat) : MeleeAIData :=
  { d with move_speed := v }

/-- `MeleeAIData::set_attack_speed`. -/
def MeleeAIData.set_attack_speed (d : MeleeAIData) (v : Nat) : MeleeAIData :=
  { d with attack_speed := v }

/-- `components.rs::MELEE_FORGET_TIME`. -/
def MELEE_FORGET_TIME : Nat := 500

/-- `components.rs::AIType`. -/
inductive AIType where
  | melee (data : MeleeAIData)
  | ranged
deriving DecidableEq, Repr

/-- `components.rs::DeathCallback`. -/
inductive DeathCallback where
  | player
  | monster
deriving DecidableEq, Repr

/-- `components.rs::Fighter` (`hp`, `max_hp` are `u16`; `defense`, `power`
are `i16`). -/
structure Fighter where
  max_hp : Nat
  hp : Nat
  defense : Int
  power : Int
  death_callback : DeathCallback
deriving DecidableEq, Repr

/-- `Fighter::new` (hp starts at `max_hp`). -/
def Fighter.mkNew (max_hp : Nat) (defense power : Int) (cb : DeathCallback) : Fighter :=
  ⟨max_hp, max_hp, defense, power, cb⟩

/-- `components.rs::Item`. -/
inductive Item where
  | heal
  | lightning
  | hexbolt
  | fireball
  | equipment
deriving DecidableEq, Repr

/-- `components.rs::Slot`. -/
inductive Slot where
  | weapon
  | head
  | body
deriving DecidableEq, Repr

/-- `components.rs::Equipment`. -/
structure Equipment where
  slot : Slot
  power_bonus : Int
  defense_bonus : Int
deriving DecidableEq, Repr

/-- `components.rs::RenderLayer`. -/
inductive RenderLayer where
  | corpse
  | item
  | blocking
deriving DecidableEq, Repr

/-- `components.rs::Object`. -/
structure Object where
  name : String
  tooltip : String
  renderable : Renderable
  render_layer : RenderLayer
  fighter : Option Fighter
  ai : Option AIType
  item : Option Item
  equipment : Option Equipment
deriving DecidableEq, Repr

/-- `Object::new`: all optional components `None`. -/
def Object.mkNew (name tooltip : String) (r : Renderable) (layer : RenderLayer) : Object :=
  ⟨name, tooltip, r, layer, none, none, none, none⟩

/-- `Object::set_fighter`. -/
def Object.set_fighter (o : Object) (f : Fighter) : Object := { o with fighter := some f }

/-- `Object::set_ai`. -/
def Object.set_ai (o : Object) (a : AIType) : Object := { o with ai := some a }

/-- `Object::set_item`. -/
def Object.set_item (o : Object) (i : Item) : Object := { o with item := some i }

/-- `Object::set_equipment`. -/
def Object.set_equipment (o : Object) (e : Equipment) : Object := { o with equipment := some e }

/-! ### `entities.rs` -/

/-- `entities.rs::stairs`. -/
def stairsEntity : Object :=
  Object.mkNew "Stairs" "stairs leading to the next floor" ⟨'>', Color.gray, Color.reset⟩ .item

/-- `entities.rs::player`. -/
def playerEntity : Object :=
  (Object.mkNew "Player" "this is you :D" ⟨'@', Color.reset, Color.reset⟩ .blocking).set_fighter
    (Fighter.mkNew 20 0 2 .player)

/-- `entities.rs::orc`. -/
def orcEntity : Object :=
  ((Object.mkNew "Orc" "orcs are evil creatures :(" ⟨'o', Color.red, Color.reset⟩
    .blocking).set_fighter (Fighter.mkNew 6 0 2 .monster)).set_ai (.melee MeleeAIData.mkNew)

/-- `entities.rs::rat`. -/
def ratEntity : Object :=
  ((Object.mkNew "Rat" "speedy evil creature" ⟨'r', Color.yellow, Color.reset⟩
    .blocking).set_fighter (Fighter.mkNew 5 0 2 .monster)).set_ai
    (.melee ((MeleeAIData.mkNew.set_move_speed 75).set_attack_speed 75))

/-- `entities.rs::troll`. -/
def trollEntity : Object :=
  ((Object.mkNew "Troll" "slow and heavy creature" ⟨'T', Color.green, Color.reset⟩
    .blocking).set_fighter (Fighter.mkNew 10 1 5 .monster)).set_ai
    (.melee ((MeleeAIData.mkNew.set_move_speed 150).set_attack_speed 150))

/-- `entities.rs::potion_cure_wounds`. -/
def potionEntity : Object :=
  (Object.mkNew "potion of cure wounds" "heals the drinker" ⟨'!', Color.reset, Color.reset⟩
    .item).set_item .heal

/-- `entities.rs::scroll_lightning`. -/
def scrollLightningEntity : Object :=
  (Object.mkNew "scroll of lightning" "smites a target" ⟨'?', Color.reset, Color.reset⟩
    .item).set_item .lightning

/-- `entities.rs::weapon_dagger`. -/
def daggerEntity : Object :=
  ((Object.mkNew "dagger" "a small dagger" ⟨'(', Color.reset, Color.reset⟩
    .item).set_item .equipment).set_equipment ⟨.weapon, 2, 0⟩

/-- `entities.rs::weapon_longsword`. -/
def longswordEntity : Object :=
  ((Object.mkNew "longsword" "a large longsword" ⟨'(', Color.blue, Color.reset⟩
    .item).set_item .equipment).set_equipment ⟨.weapon, 4, 0⟩

/-- `entities.rs::helmet`. -/
def helmetEntity : Object :=
  ((Object.mkNew "helmet" "a sturdy helmet" ⟨']', Color.reset, Color.reset⟩
    .item).set_item .equipment).set_equipment ⟨.head, 0, 1⟩

/-- `entities.rs::leather_armor`. -/
def leatherArmorEntity : Object :=
  ((Object.mkNew "leather armor" "supple leather armor" ⟨'[', Color.reset, Color.reset⟩
    .item).set_item .equipment).set_equipment ⟨.body, 0, 1⟩

/-- `entities.rs::plate_armor`. -/
def plateArmorEntity : Object :=
  ((Object.mkNew "plate armor" "sturdy plate armor" ⟨'[', Color.blue, Color.reset⟩
    .item).set_item .equipment).set_equipment ⟨.body, 0, 2⟩

/-! ### `engine.rs`: combat and melee-AI decision -/

/-- Rust `i16::saturating_sub`. -/
def satSubI16 (a b : Int) : Int := max (-32768) (min 32767 (a - b))

/-- `engine.rs::damage` as a function of the sampled mitigation value:
`power.saturating_sub(mitigated_damage).max(0)`. -/
def damageVal (power mit : Int) : Int := max 0 (satSubI16 power mit)

/-- The sampling precondition of `engine.rs::damage`:
`rng.random_range((defense / 2)..=defense)` draws `mit` with
`defense / 2 <= mit <= defense` (Rust `/` on `i16` truncates toward zero)
and panics when that range is empty. -/
def mitInRange (defense mit : Int) : Prop := Int.tdiv defense 2 ≤ mit ∧ mit ≤ defense

instance (defense mit : Int) : Decidable (mitInRange defense mit) := by
  unfold mitInRange
  infer_instance

/-- The outcome of one melee-AI turn (`engine.rs::handle_melee_ai`,
lines 439-447): length-0 path gives the flat fallback 100, length-1 path
resolves a melee attack on `path[0]`, otherwise a move to `path[0]`. -/
inductive MeleeTurn where
  | fallback (time : Nat)
  | attack (target : Nat × Nat) (time : Nat)
  | move (target : Nat × Nat) (time : Nat)
deriving DecidableEq, Repr

/-- The branch on `path.len()` at the end of `handle_melee_ai`. -/
def melee_path_branch (path : List (Nat × Nat)) (attack_time move_time : Nat) : MeleeTurn :=
  match path with
  | [] => .fallback 100
  | [p] => .attack p attack_time
  | p :: _ :: _ => .move p move_time

/-- The pathing part of `handle_melee_ai` once a target is remembered: build
the inline cost array (`melee_costs`), construct the pathfinder rooted at the
monster with cardinal step cost 2 and diagonal step cost 3, and query the
path to the target's position. -/
def handle_melee_pathing (m : GameMap) (monsterPos targetPos : Nat × Nat) :
    Option (List (Nat × Nat)) :=
  match Pathfinder.new (melee_costs m) monsterPos m.width m.height 2 3 with
  | none => none
  | some pf => pf.path_to targetPos

/-- The decision taken by `handle_melee_ai` with a remembered target at
`targetPos`: the branch on the returned path's length. -/
def handle_melee_decision (m : GameMap) (monsterPos targetPos : Nat × Nat)
    (attack_time move_time : Nat) : Option MeleeTurn :=
  match handle_melee_pathing m monsterPos targetPos with
  | none => none
  | some path => some (melee_path_branch path attack_time move_time)

/-! ### `engine.rs`: turn scheduler

The `App` struct, the `Action` struct and its `Ord` instance live in the
app-module root, which is not among the sources (the checked-in `app.rs` is a
stale earlier iteration using a different engine).  `Action` and its ordering
are therefore modelled from the spec: a scheduled action is a `(time, id)`
pair, "ordered primarily by time ascending, secondarily by id (deterministic
tie-break)", held in a priority queue popped earliest-first. -/

/-- Modelled from the spec: `app::Action`, a `(time: u64, actor_id)` pair
(the definition lives in the missing app-module root). -/
structure Action where
  time : Nat
  id : Nat
deriving DecidableEq, Repr

/-- Modelled from the spec: the ordering of `app::Action` — by time
ascending, ties broken by id — so the queue pops the earliest entry. -/
def actionLeB (a b : Action) : Bool :=
  decide (a.time < b.time ∨ (a.time = b.time ∧ a.id ≤ b.id))

/-- The object fields `perform_action` consults: `alive` and the optional AI
component. -/
structure SchedObj where
  alive : Bool
  ai : Option AIType

/-- The scheduler-visible app state: the action queue, the frozen clock
(`app.time` is not advanced during a drain), and the rest of the app
(`σ`), through which the melee handler acts. -/
structure SchedState (σ : Type) where
  queue : List Action
  time : Nat
  rest : σ

/-- `engine.rs::perform_action`: look the actor up (absent, dead or AI-less
actors are dropped without rescheduling); a melee actor acts through the
handler (abstracted as `melee`, standing for `handle_melee_ai`, which never
touches the queue or the clock) and is re-queued at its scheduled time plus
the returned duration; a ranged actor hits `todo!()`, a panic (`none`). -/
def perform_action {σ : Type} (lookup : σ → Nat → Option SchedObj)
    (melee : σ → Nat → σ × Nat) (s : SchedState σ) (a : Action) :
    Option (SchedState σ) :=
  match lookup s.rest a.id with
  | none => some s
  | some obj =>
    if !obj.alive then some s
    else
      match obj.ai with
      | none => some s
      | some (.melee _) =>
        some { queue := ⟨a.time + (melee s.rest a.id).2, a.id⟩ :: s.queue
               time := s.time
               rest := (melee s.rest a.id).1 }
      | some .ranged => none

/-- `engine.rs::handle_monster_turns`: repeatedly peek the earliest entry and
stop when the queue is empty or the next entry is scheduled after `app.time`;
otherwise pop it and perform its action.  A zero-duration action can re-queue
at the same time forever, so the Rust loop need not terminate; the fuel
counts loop iterations and `none` models both divergence and a panic inside
`perform_action`. -/
def handle_monster_turns {σ : Type} (lookup : σ → Nat → Option SchedObj)
    (melee : σ → Nat → σ × Nat) : Nat → SchedState σ → Option (SchedState σ)
  | 0, _ => none
  | fuel + 1, s =>
    match popMinBy actionLeB s.queue with
    | none => some s
    | some (top, restq) =>
      if top.time > s.time then some s
      else
        match perform_action lookup melee { s with queue := restq } top with
        | none => none
        | some s1 => handle_monster_turns lookup melee fuel s1

/-! ### The app state and `app/saving.rs`

The app-module root defining `App`, `ObjectMap`, `Log` and `PLAYER` is not
among the sources; those carriers are modelled from the spec (an id-allocation
authority handing out monotonically increasing ids, a message log, and the
app state holding the grid, the object store, the action queue, the clock,
inventory and equipment). -/

/-- Modelled from the spec: the object store (`ObjectMap`), an id-allocation
authority allocating ids monotonically; `add` stores the object under a fresh
id and returns that id. -/
structure ObjectMap where
  next_id : Nat
  store : List (Nat × Object)
deriving DecidableEq, Repr

/-- `ObjectMap::add` (modelled from the spec): allocate the next id. -/
def ObjectMap.add (om : ObjectMap) (o : Object) : ObjectMap × Nat :=
  (⟨om.next_id + 1, om.store ++ [(om.next_id, o)]⟩, om.next_id)

/-- Modelled from the spec: the message log, a list of styled lines. -/
abbrev Log : Type := List (String × Color)

/-- Modelled from the spec: `app::PLAYER`, the stable id handle of the player
(the first id the allocation authority hands out). -/
def PLAYER : Nat := 0

/-- Modelled from the spec: the persisted fields of `App` (`app/saving.rs`
reads `self.gamemap`, `self.objects`, `self.action_queue`, `self.inventory`,
`self.equipment`, `self.log`; the clock `self.time` is part of the scheduler
state). -/
structure App where
  gamemap : GameMap
  objects : ObjectMap
  action_queue : List Action
  time : Nat
  inventory : List Nat
  equipment : List (Option Nat)
  log : Log

/-- One serialized component of the save file.  `serde_json` round-trips each
component value at its own type (modelled from the spec: "every field above
must round-trip exactly"), so components are kept abstract and tagged by
type; decoding demands the exact type at each position. -/
inductive JValue where
  | jmap (g : GameMap)
  | jobjs (o : ObjectMap)
  | jqueue (q : List Action)
  | jinv (v : List Nat)
  | jequip (v : List (Option Nat))
  | jlog (l : Log)

/-- `App::save_game`: serializes the 6-tuple
`(gamemap, objects, action_queue, inventory, equipment, log)`. -/
def save_game (app : App) : List JValue :=
  [.jmap app.gamemap, .jobjs app.objects, .jqueue app.action_queue,
   .jinv app.inventory, .jequip app.equipment, .jlog app.log]

/-- The deserialization step of `App::load_game`:
`serde_json::from_str::<(GameMap, ObjectMap, Vec<usize>, Vec<Option<usize>>, Log)>`
— a 5-tuple, with no `action_queue` component.  `serde_json` tuple decoding
demands an array of exactly that arity with each element of the demanded
type; anything else is an error (`none`). -/
def decode_save : List JValue → Option (GameMap × ObjectMap × List Nat × List (Option Nat) × Log)
  | [.jmap g, .jobjs o, .jinv i, .jequip e, .jlog l] => some (g, o, i, e, l)
  | _ => none

/-- `App::load_game` applied to a file just written by `App::save_game`: on a
decoding error the `?` operator returns early and no field is assigned;
on success the five decoded fields are assigned (`action_queue` and `time`
are never assigned). -/
def load_game_after_save (app : App) : Option App :=
  match decode_save (save_game app) with
  | none => none
  | some (g, o, i, e, l) =>
    some { app with gamemap := g, objects := o, inventory := i, equipment := e, log := l }

/-! ### `app/procgen.rs`: dungeon generation -/

/-- The random oracle: the `k`-th value drawn from `rand::rng()`. -/
def Rng : Type := Nat → Nat

/-- `rng.random_range(lo..=hi)` (inclusive): maps the next oracle value into
the range, panicking (`none`) when the range is empty.  Returns the sample
and the next draw counter. -/
def randRangeIncl (r : Rng) (k lo hi : Nat) : Option (Nat × Nat) :=
  if lo ≤ hi then some (lo + r k % (hi - lo + 1), k + 1) else none

/-- `rng.random_range(lo..hi)` (exclusive upper bound). -/
def randRangeExcl (r : Rng) (k lo hi : Nat) : Option (Nat × Nat) :=
  if lo < hi then some (lo + r k % (hi - lo), k + 1) else none

/-- `rng.random::<bool>()`. -/
def randBool (r : Rng) (k : Nat) : Bool × Nat := (r k % 2 = 0, k + 1)

/-- Inverse-CDF walk of `WeightedIndex::sample`: the first index whose
cumulative weight exceeds the draw (zero-weight entries are never chosen). -/
def weightIdx : List Nat → Nat → Nat
  | [], _ => 0
  | w :: rest, u => if u < w then 0 else 1 + weightIdx rest (u - w)

/-- `WeightedIndex::new(weights).unwrap()` followed by one `sample`:
construction panics (`none`) when the total weight is zero. -/
def weightedPick (r : Rng) (k : Nat) (weights : List Nat) : Option (Nat × Nat) :=
  if weights.sum = 0 then none
  else some (weightIdx weights (r k % weights.sum), k + 1)

/-- `app/procgen.rs::RectangularRoom`. -/
structure RectRoom where
  x1 : Nat
  y1 : Nat
  x2 : Nat
  y2 : Nat
deriving DecidableEq, Repr

/-- `RectangularRoom::new`. -/
def RectRoom.mkNew (x y w h : Nat) : RectRoom := ⟨x, y, x + w, y + h⟩

/-- `RectangularRoom::center`. -/
def RectRoom.center (r : RectRoom) : Nat × Nat := ((r.x1 + r.x2) / 2, (r.y1 + r.y2) / 2)

/-- `RectangularRoom::inner`: all cells `(x, y)` with
`x1 < x < x2`, `y1 < y < y2`, iterated y-outer exactly as the source's
iterator chain. -/
def RectRoom.inner (r : RectRoom) : List (Nat × Nat) :=
  (List.range' (r.y1 + 1) (r.y2 - (r.y1 + 1))).flatMap
    (fun y => (List.range' (r.x1 + 1) (r.x2 - (r.x1 + 1))).map (fun x => (x, y)))

/-- `RectangularRoom::intersects` (closed comparisons: touching counts as
intersecting). -/
def RectRoom.intersects (a b : RectRoom) : Bool :=
  a.x1 ≤ b.x2 && a.x2 ≥ b.x1 && a.y1 ≤ b.y2 && a.y2 ≥ b.y1

/-- Write one tile (`*dungeon.get_mut(x, y) = tile`); a flat index outside
the tile array is a Rust indexing panic (`none`). -/
def setTile (m : GameMap) (x y : Nat) (t : Tile) : Option GameMap :=
  if coords_to_idx x y m.width < m.tiles.length then
    some { m with tiles := m.tiles.set (coords_to_idx x y m.width) t }
  else none

/-- Carve every listed cell to floor. -/
def carveList (m : GameMap) (cells : List (Nat × Nat)) : Option GameMap :=
  cells.foldlM (fun mm c => setTile mm c.1 c.2 (Tile.mkNew .Floor)) m

/-- `app/procgen.rs::tunnel_between`: pick the L-corner by a coin flip
(`(x2, y1)` on true, `(x1, y2)` on false), rasterize the two segments with
`bresenham` over `i32`, and cast each cell back with `as u16`. -/
def tunnel_between (r : Rng) (k : Nat) (p q : Nat × Nat) : List (Nat × Nat) × Nat :=
  let bk := randBool r k
  let corner : Int × Int :=
    if bk.1 then ((q.1 : Int), (p.2 : Int)) else ((p.1 : Int), (q.2 : Int))
  let seg1 := (bresenham ((p.1 : Int), (p.2 : Int)) corner).map (fun c => (toU16 c.1, toU16 c.2))
  let seg2 := (bresenham corner ((q.1 : Int), (q.2 : Int))).map (fun c => (toU16 c.1, toU16 c.2))
  (seg1 ++ seg2, bk.2)

/-- `app/procgen.rs::DungeonConfig`. -/
structure DungeonConfig where
  max_rooms : Nat
  room_min_width : Nat
  room_max_width : Nat
  room_min_height : Nat
  room_max_height : Nat
  width : Nat
  height : Nat
  level : Nat
deriving DecidableEq, Repr

/-- `DungeonConfig::default`. -/
def DungeonConfig.defaultCfg : DungeonConfig := ⟨200, 7, 25, 4, 7, 80, 24, 1⟩

/-- `DungeonConfig::set_level`. -/
def DungeonConfig.set_level (c : DungeonConfig) (lvl : Nat) : DungeonConfig :=
  { c with level := lvl }

/-- `app/procgen.rs::Transition`. -/
structure Transition where
  level : Nat
  value : Nat
deriving DecidableEq, Repr

/-- `app/procgen.rs::from_dungeon_level`: the value of the last table entry
whose level has been reached, default 0. -/
def from_dungeon_level (table : List Transition) (level : Nat) : Nat :=
  match table.reverse.find? (fun t => level ≥ t.level) with
  | some t => t.value
  | none => 0

/-- `app/procgen.rs::monster_table` (entity callbacks applied). -/
def monster_table (level : Nat) : List (Object × Nat) :=
  [(orcEntity, 80),
   (ratEntity, from_dungeon_level [⟨2, 30⟩, ⟨3, 50⟩, ⟨5, 70⟩] level),
   (trollEntity, from_dungeon_level [⟨3, 30⟩, ⟨5, 45⟩, ⟨7, 60⟩] level)]

/-- `app/procgen.rs::item_table` (entity callbacks applied). -/
def item_table (level : Nat) : List (Object × Nat) :=
  [(potionEntity, 30),
   (scrollLightningEntity, from_dungeon_level [⟨2, 15⟩] level),
   (daggerEntity, 5),
   (longswordEntity, from_dungeon_level [⟨4, 5⟩] level),
   (helmetEntity, from_dungeon_level [⟨3, 5⟩] level),
   (leatherArmorEntity, from_dungeon_level [⟨2, 5⟩] level),
   (plateArmorEntity, from_dungeon_level [⟨5, 5⟩] level)]

/-- `app/procgen.rs::MAX_MONSTERS_TABLE`. -/
def MAX_MONSTERS_TABLE : List Transition := [⟨1, 2⟩, ⟨4, 3⟩, ⟨6, 4⟩]

/-- `app/procgen.rs::MAX_ITEMS_TABLE`. -/
def MAX_ITEMS_TABLE : List Transition := [⟨1, 1⟩, ⟨3, 2⟩]

/-- The body of `App::place_objects` after the count draw: for each of the
`count` draws pick a random interior cell, skip it if occupied (item slot for
items, blocker slot for monsters), else sample the weighted table, allocate
the object, place it, and register AI carriers in the action queue with the
`time + 100` initial delay, logging the registration. -/
def place_objects_loop (r : Rng) (room : RectRoom) (weights : List (Object × Nat))
    (is_item : Bool) : Nat → Nat → App → GameMap → Option (App × GameMap × Nat)
  | 0, k, app, dungeon => some (app, dungeon, k)
  | n + 1, k, app, dungeon =>
    match randRangeExcl r k (room.x1 + 1) room.x2 with
    | none => none
    | some (x, k1) =>
      match randRangeExcl r k1 (room.y1 + 1) room.y2 with
      | none => none
      | some (y, k2) =>
        match dungeon.tiles.get? (coords_to_idx x y dungeon.width) with
        | none => none
        | some t =>
          if (if is_item then t.item.isSome else t.blocker.isSome) then
            place_objects_loop r room weights is_item n k2 app dungeon
          else
            match weightedPick r k2 (weights.map (fun e => e.2)) with
            | none => none
            | some (wi, k3) =>
              match weights.get? wi with
              | none => none
              | some we =>
                let has_ai := we.1.ai.isSome
                let pr := app.objects.add we.1
                let app1 := { app with objects := pr.1 }
                match (if is_item then dungeon.place_item pr.2 x y
                       else dungeon.place_blocker pr.2 x y) with
                | none => none
                | some d1 =>
                  let app2 :=
                    if has_ai then
                      { app1 with
                        action_queue := ⟨app1.time + 100, pr.2⟩ :: app1.action_queue
                        log := app1.log ++
                          [("added action for object " ++ toString pr.2, Color.reset)] }
                    else app1
                  place_objects_loop r room weights is_item n k3 app2 d1

/-- `App::place_objects`: build the weighted distribution (total weight 0 is
an `unwrap` panic), draw a count in `0..=maximum_objects`, then run the
placement loop. -/
def place_objects (r : Rng) (room : RectRoom) (weights : List (Object × Nat))
    (max_objects : Nat) (is_item : Bool) (k : Nat) (app : App) (dungeon : GameMap) :
    Option (App × GameMap × Nat) :=
  if (weights.map (fun e => e.2)).sum = 0 then none
  else
    match randRangeIncl r k 0 max_objects with
    | none => none
    | some (count, k1) => place_objects_loop r room weights is_item count k1 app dungeon

/-- The room-acceptance loop of `App::generate_dungeon`: sample a rectangle
(`width - room_width` underflows, i.e. panics, when the room is wider than
the grid — `none`), reject it when it intersects any accepted room, otherwise
carve its interior, tunnel to the previous room's center when one exists, and
accept it. -/
def room_loop (r : Rng) (cfg : DungeonConfig) :
    Nat → Nat → GameMap → List RectRoom → Option (GameMap × List RectRoom × Nat)
  | 0, k, dungeon, rooms => some (dungeon, rooms, k)
  | n + 1, k, dungeon, rooms =>
    match randRangeIncl r k cfg.room_min_width cfg.room_max_width with
    | none => none
    | some (rw, k1) =>
      match randRangeIncl r k1 cfg.room_min_height cfg.room_max_height with
      | none => none
      | some (rh, k2) =>
        if rw ≤ dungeon.width ∧ rh ≤ dungeon.height then
          match randRangeExcl r k2 0 (dungeon.width - rw) with
          | none => none
          | some (x, k3) =>
            match randRangeExcl r k3 0 (dungeon.height - rh) with
            | none => none
            | some (y, k4) =>
              let new_room := RectRoom.mkNew x y rw rh
              if rooms.foldl (fun b room => b || room.intersects new_room) false then
                room_loop r cfg n k4 dungeon rooms
              else
                match carveList dungeon new_room.inner with
                | none => none
                | some d1 =>
                  match rooms.getLast? with
                  | none => room_loop r cfg n k4 d1 (rooms ++ [new_room])
                  | some lastR =>
                    let tk := tunnel_between r k4 lastR.center new_room.center
                    match carveList d1 tk.1 with
                    | none => none
                    | some d2 => room_loop r cfg n tk.2 d2 (rooms ++ [new_room])
        else none

/-- The per-room population loop of `App::generate_dungeon`. -/
def populate_rooms (r : Rng) : List RectRoom → Nat → App → GameMap →
    Option (App × GameMap × Nat)
  | [], k, app, dungeon => some (app, dungeon, k)
  | room :: rest, k, app, dungeon =>
    match place_objects r room (monster_table dungeon.level)
        (from_dungeon_level MAX_MONSTERS_TABLE dungeon.level) false k app dungeon with
    | none => none
    | some (a1, d1, k1) =>
      match place_objects r room (item_table d1.level)
          (from_dungeon_level MAX_ITEMS_TABLE d1.level) true k1 a1 d1 with
      | none => none
      | some (a2, d2, k2) => populate_rooms r rest k2 a2 d2

/-- `App::generate_dungeon`: fresh all-wall grid, room loop, per-room
population, player at the center of the first accepted room, stairs (a fresh
object) at the center of the last accepted room, and the new grid installed
into the app.  `rooms.first().unwrap()` / `rooms.last().unwrap()` panic on an
empty room list (`none`).  (The source also pushes ids into
`dungeon.object_ids`, a field of an older `GameMap` iteration that no longer
exists; that bookkeeping has no counterpart here.) -/
def generate_dungeon (r : Rng) (cfg : DungeonConfig) (app : App) : Option App :=
  match room_loop r cfg cfg.max_rooms 0 (GameMap.mkNew cfg.width cfg.height cfg.level) [] with
  | none => none
  | some (d1, rooms, k1) =>
    match populate_rooms r rooms k1 app d1 with
    | none => none
    | some (a1, d2, _) =>
      match rooms.head? with
      | none => none
      | some firstR =>
        match d2.place_blocker PLAYER firstR.center.1 firstR.center.2 with
        | none => none
        | some d3 =>
          match rooms.getLast? with
          | none => none
          | some lastR =>
            let pr := a1.objects.add stairsEntity
            match d3.place_item pr.2 lastR.center.1 lastR.center.2 with
            | none => none
            | some d4 => some { a1 with objects := pr.1, gamemap := d4 }

/-! ## Theorems -/

/-! ### C9: placement on non-walkable tiles always fails -/

/-- C9: for every map state and coordinate whose tile is non-walkable,
`place_blocker` and `place_item` take the panic branch (`none`), never
silently succeeding, so a non-walkable tile never acquires a blocker or item
reference. -/
theorem c9_nonwalkable_place_fails (m : GameMap) (id x y : Nat) (t : Tile)
    (hget : m.tiles.get? (coords_to_idx x y m.width) = some t)
    (hwalk : t.is_walkable = false) :
    m.place_blocker id x y = none ∧ m.place_item id x y = none := by
  unfold GameMap.place_blocker GameMap.place_item
  rw [hget]
  simp [hwalk]

/-- C9 witness: on a freshly built 2×2 map (all wall), placing a blocker or an
item at (0, 0) fails. -/
theorem c9_witness :
    ((GameMap.mkNew 2 2 1).tiles.get? (coords_to_idx 0 0 2) = some (Tile.mkNew .Wall) ∧
      (Tile.mkNew .Wall).is_walkable = false) ∧
    ((GameMap.mkNew 2 2 1).place_blocker 7 0 0 = none ∧
      (GameMap.mkNew 2 2 1).place_item 7 0 0 = none) :=
  ⟨⟨rfl, rfl⟩, c9_nonwalkable_place_fails (GameMap.mkNew 2 2 1) 7 0 0 (Tile.mkNew .Wall) rfl rfl⟩

/-! ### C5: `damage(power, defense)` -/

/-- C5 counterexample: at `defense = -5` the sampling range
`(defense / 2)..=defense` of `engine.rs::damage` is `-2..=-5`, which is
empty, so `random_range` panics instead of returning a value — the claim
that the function returns a value whatever the sign of `defense` is false. -/
theorem c5_counterexample : ¬ ∃ mit : Int, mitInRange (-5) mit := by
  rintro ⟨mit, h1, h2⟩
  have hd : Int.tdiv (-5) 2 = -2 := by decide
  rw [hd] at h1
  omega

/-- C5 (amended): for `power ≥ 0` and `defense ≥ 0`, every mitigation draw in
`[defense / 2, defense]` yields a damage value in `[0, power]`; for negative
`defense` the sampling range is empty and `damage` panics (see the
counterexample). -/
theorem c5_damage_in_range (power defense mit : Int) (hp : 0 ≤ power) (hd : 0 ≤ defense)
    (hm : mitInRange defense mit) :
    0 ≤ damageVal power mit ∧ damageVal power mit ≤ power := by
  obtain ⟨h1, h2⟩ := hm
  have h0 : 0 ≤ Int.tdiv defense 2 := Int.tdiv_nonneg hd (by norm_num)
  unfold damageVal satSubI16
  constructor
  · exact le_max_left 0 _
  · have hmit : 0 ≤ mit := le_trans h0 h1
    have : min 32767 (power - mit) ≤ power := le_trans (min_le_right _ _) (by omega)
    omega

/-- C5 witness: with `power = 3`, `defense = 2` and the draw `mit = 1`
(indeed `2 / 2 ≤ 1 ≤ 2`), the damage value is within `[0, 3]`. -/
theorem c5_witness :
    ((0 : Int) ≤ 3 ∧ (0 : Int) ≤ 2 ∧ mitInRange 2 1) ∧
      (0 ≤ damageVal 3 1 ∧ damageVal 3 1 ≤ 3) :=
  ⟨⟨by norm_num, by norm_num, by decide⟩,
    c5_damage_in_range 3 2 1 (by norm_num) (by norm_num) (by decide)⟩

/-! ### C4: bresenham endpoints -/

/-- C4: the discrete line from (5, 0) to (5, 3) as computed by
`los.rs::bresenham` is just `[(5, 0)]` — it never reaches its stated endpoint
(5, 3).  The source computes `dx = (x2 - y1).abs()` where the referenced
algorithm requires `x2 - x1`; here that typo selects the `dx > dy` branch
whose loop `while x != x2` exits immediately. -/
theorem c4_bresenham_misses_endpoint : bresenham (5, 0) (5, 3) = [(5, 0)] := rfl

/-! ### C3: save/load round-trip -/

/-- C3: loading immediately after saving fails for every app state:
`save_game` serializes the 6-tuple `(gamemap, objects, action_queue,
inventory, equipment, log)` while `load_game` deserializes a 5-tuple without
the action queue, so the decode step errors out and no pending `(time, id)`
pair (nor any other field) is ever restored. -/
theorem c3_save_load_roundtrip_fails (app : App) : load_game_after_save app = none := rfl

/-! ### C6: the melee AI's cost array -/

/-- The body of the melee AI's cost-filling loop for one cell. -/
def mcStep (m : GameMap) (cs : List Nat) (p : Nat × Nat) : List Nat :=
  if (m.tileAt p.1 p.2).is_walkable then
    cs.set (coords_to_idx p.1 p.2 m.width) (cs.getD (coords_to_idx p.1 p.2 m.width) 0 + 1)
  else cs

/-- The row-major enumeration of all grid cells (y outer, x inner), matching
the nested loops of `handle_melee_ai`. -/
def rowMajor (h w : Nat) : List (Nat × Nat) :=
  (List.range h).flatMap (fun y => (List.range w).map (fun x => (x, y)))

theorem foldl_flatMap {α β γ : Type} (f : γ → β → γ) (g : α → List β) (l : List α) (init : γ) :
    (l.flatMap g).foldl f init = l.foldl (fun acc a => (g a).foldl f acc) init := by
  induction l generalizing init with
  | nil => rfl
  | cons a rest ih =>
    rw [List.flatMap_cons, List.foldl_append, List.foldl_cons]
    exact ih _

theorem melee_costs_eq_rowMajor (m : GameMap) :
    melee_costs m = (rowMajor m.height m.width).foldl (mcStep m)
      (List.replicate (m.height * m.width) 0) := by
  unfold melee_costs rowMajor
  rw [foldl_flatMap]
  simp only [List.foldl_map]
  rfl

theorem getD_set_ne (l : List Nat) (i j v : Nat) (h : i ≠ j) :
    (l.set i v).getD j 0 = l.getD j 0 := by
  simp [List.getD_eq_getElem?_getD, List.getElem?_set_ne h]

theorem getD_set_self (l : List Nat) (i v : Nat) (h : i < l.length) :
    (l.set i v).getD i 0 = v := by
  simp [List.getD_eq_getElem?_getD, List.getElem?_set_self h]

theorem mcStep_getD_ne (m : GameMap) (cs : List Nat) (p : Nat × Nat) (j : Nat)
    (h : coords_to_idx p.1 p.2 m.width ≠ j) :
    (mcStep m cs p).getD j 0 = cs.getD j 0 := by
  unfold mcStep
  by_cases hw : (m.tileAt p.1 p.2).is_walkable
  · rw [if_pos hw, getD_set_ne _ _ _ _ h]
  · rw [if_neg hw]

theorem mcStep_length (m : GameMap) (cs : List Nat) (p : Nat × Nat) :
    (mcStep m cs p).length = cs.length := by
  unfold mcStep
  by_cases hw : (m.tileAt p.1 p.2).is_walkable
  · rw [if_pos hw, List.length_set]
  · rw [if_neg hw]

theorem mcFold_getD_ne (m : GameMap) (L : List (Nat × Nat)) (cs : List Nat) (j : Nat)
    (h : ∀ p ∈ L, coords_to_idx p.1 p.2 m.width ≠ j) :
    (L.foldl (mcStep m) cs).getD j 0 = cs.getD j 0 := by
  induction L generalizing cs with
  | nil => rfl
  | cons p rest ih =>
    rw [List.foldl_cons, ih _ (fun q hq => h q (List.mem_cons_of_mem _ hq)),
      mcStep_getD_ne _ _ _ _ (h p (List.mem_cons_self _ _))]

theorem mcFold_char (m : GameMap) (L : List (Nat × Nat)) (cs : List Nat) (j : Nat)
    (hnd : (L.map (fun p => coords_to_idx p.1 p.2 m.width)).Nodup)
    (hj : cs.getD j 0 = 0) (hlen : j < cs.length) :
    (L.foldl (mcStep m) cs).getD j 0 =
      if L.any (fun p => decide (coords_to_idx p.1 p.2 m.width = j) &&
          (m.tileAt p.1 p.2).is_walkable) then 1 else 0 := by
  induction L generalizing cs with
  | nil =>
    rw [List.foldl_nil, List.any_nil]
    simpa [List.getD_eq_getElem?_getD] using hj
  | cons p rest ih =>
    rw [List.map_cons, List.nodup_cons] at hnd
    by_cases hpj : coords_to_idx p.1 p.2 m.width = j
    · have hrest : ∀ q ∈ rest, coords_to_idx q.1 q.2 m.width ≠ j := by
        intro q hq hcontra
        exact hnd.1 (hpj ▸ hcontra ▸ List.mem_map_of_mem _ hq)
      rw [List.foldl_cons, mcFold_getD_ne m rest _ j hrest]
      by_cases hw : (m.tileAt p.1 p.2).is_walkable
      · have : (mcStep m cs p).getD j 0 = 1 := by
          unfold mcStep
          rw [if_pos hw, hpj, hj, getD_set_self _ _ _ (hpj ▸ hlen)]
        rw [this]
        have hany : (p :: rest).any (fun p => decide (coords_to_idx p.1 p.2 m.width = j) &&
            (m.tileAt p.1 p.2).is_walkable) = true := by
          simp only [List.any_cons, Bool.or_eq_true, Bool.and_eq_true, decide_eq_true_eq]
          exact Or.inl ⟨hpj, hw⟩
        rw [if_pos hany]
      · have hw' : (m.tileAt p.1 p.2).is_walkable = false := by
          cases h : (m.tileAt p.1 p.2).is_walkable
          · rfl
          · exact absurd h hw
        have : mcStep m cs p = cs := by unfold mcStep; rw [hw']; simp
        rw [this, hj]
        have hany : (p :: rest).any (fun p => decide (coords_to_idx p.1 p.2 m.width = j) &&
            (m.tileAt p.1 p.2).is_walkable) = false := by
          rw [List.any_eq_false]
          intro q hq
          rcases List.mem_cons.mp hq with h1 | h1
          · subst h1
            simp [hw']
          · simp [hrest q h1]
        rw [if_neg (by rw [hany]; exact Bool.false_ne_true)]
    · rw [List.foldl_cons]
      have hcs1 : (mcStep m cs p).getD j 0 = 0 := by rw [mcStep_getD_ne _ _ _ _ hpj, hj]
      have hlen1 : j < (mcStep m cs p).length := by rw [mcStep_length]; exact hlen
      rw [ih _ hnd.2 hcs1 hlen1]
      have : (p :: rest).any (fun p => decide (coords_to_idx p.1 p.2 m.width = j) &&
            (m.tileAt p.1 p.2).is_walkable)
          = rest.any (fun p => decide (coords_to_idx p.1 p.2 m.width = j) &&
            (m.tileAt p.1 p.2).is_walkable) := by
        simp only [List.any_cons, decide_eq_false hpj, Bool.false_and, Bool.false_or]
      rw [this]

theorem rowMajor_map_idx (h w : Nat) :
    (rowMajor h w).map (fun p => coords_to_idx p.1 p.2 w) = List.range (h * w) := by
  induction h with
  | zero => rw [Nat.zero_mul]; rfl
  | succ n ih =>
    rw [rowMajor, List.range_succ, List.flatMap_append, List.map_append]
    rw [show (List.range n).flatMap (fun y => (List.range w).map (fun x => (x, y)))
        = rowMajor n w from rfl, ih]
    rw [Nat.succ_mul, List.range_add]
    congr 1
    rw [List.flatMap_cons, List.flatMap_nil, List.append_nil, List.map_map]
    refine List.map_congr_left ?_
    intro x _
    simp only [Function.comp_apply, coords_to_idx]
    omega

theorem rowMajor_nodup_idx (h w : Nat) :
    ((rowMajor h w).map (fun p => coords_to_idx p.1 p.2 w)).Nodup := by
  rw [rowMajor_map_idx]
  exact List.nodup_range _

theorem mem_rowMajor (h w x y : Nat) (hx : x < w) (hy : y < h) : (x, y) ∈ rowMajor h w := by
  unfold rowMajor
  rw [List.mem_flatMap]
  exact ⟨y, List.mem_range.mpr hy, List.mem_map_of_mem _ (List.mem_range.mpr hx)⟩

theorem coords_to_idx_inj (w x1 y1 x2 y2 : Nat) (h1 : x1 < w) (h2 : x2 < w)
    (heq : coords_to_idx x1 y1 w = coords_to_idx x2 y2 w) : x1 = x2 ∧ y1 = y2 := by
  unfold coords_to_idx at heq
  have hw : 0 < w := by omega
  have hx : x1 = x2 := by
    have e1 : (x1 + y1 * w) % w = x1 := by
      rw [Nat.add_mul_mod_self_right, Nat.mod_eq_of_lt h1]
    have e2 : (x2 + y2 * w) % w = x2 := by
      rw [Nat.add_mul_mod_self_right, Nat.mod_eq_of_lt h2]
    rw [← e1, ← e2, heq]
  refine ⟨hx, ?_⟩
  subst hx
  have := Nat.eq_of_mul_eq_mul_right hw (by omega : y1 * w = y2 * w)
  exact this

/-- C6 (amended): the cost array the melee AI builds assigns every in-bounds
cell a cost determined by walkability alone — 1 when walkable, 0 when not —
with no higher constant for cells occupied by another blocker (the
occupancy-aware convention exists only in `generate_simple_costs_array`,
which `handle_melee_ai` does not call). -/
theorem c6_melee_costs_char (m : GameMap) (x y : Nat) (hx : x < m.width) (hy : y < m.height) :
    (melee_costs m).getD (coords_to_idx x y m.width) 0 =
      if (m.tileAt x y).is_walkable then 1 else 0 := by
  rw [melee_costs_eq_rowMajor]
  have hlen : coords_to_idx x y m.width < (List.replicate (m.height * m.width) 0).length := by
    rw [List.length_replicate]
    unfold coords_to_idx
    calc x + y * m.width < m.width + y * m.width := by omega
      _ = (y + 1) * m.width := by ring
      _ ≤ m.height * m.width := Nat.mul_le_mul_right _ (by omega)
  have hj : (List.replicate (m.height * m.width) 0).getD (coords_to_idx x y m.width) 0 = 0 := by
    simp [List.getD_eq_getElem?_getD]
  rw [mcFold_char m _ _ _ (rowMajor_nodup_idx m.height m.width) hj hlen]
  by_cases hw : (m.tileAt x y).is_walkable
  · rw [if_pos hw, if_pos]
    rw [List.any_eq_true]
    refine ⟨(x, y), mem_rowMajor _ _ _ _ hx hy, ?_⟩
    simp [hw]
  · rw [if_neg hw, if_neg]
    rw [List.any_eq_true]
    rintro ⟨⟨a, b⟩, hmem, hprop⟩
    simp only [Bool.and_eq_true, decide_eq_true_eq] at hprop
    have hb : a < m.width ∧ b < m.height := by
      unfold rowMajor at hmem
      rw [List.mem_flatMap] at hmem
      obtain ⟨y', hy', hmem'⟩ := hmem
      rw [List.mem_map] at hmem'
      obtain ⟨x', hx', heq⟩ := hmem'
      cases heq
      exact ⟨List.mem_range.mp hx', List.mem_range.mp hy'⟩
    obtain ⟨hax, hby⟩ := coords_to_idx_inj m.width a b x y hb.1 hx hprop.1
    subst hax
    subst hby
    exact hw hprop.2

/-- The concrete 2×1 map of the C6 counterexample: both tiles are floor and
the tile at (1, 0) carries blocker 7. -/
def mapC6 : GameMap :=
  { width := 2, height := 1, level := 1
    tiles := [Tile.mkNew .Floor, ⟨.Floor, none, some 7⟩]
    visible := [false, false], explored := [false, false]
    last_seen := [Renderable.defaultVal, Renderable.defaultVal]
    objects := [(7, ⟨1, 0⟩)] }

/-- C6 counterexample: the walkable tile (1, 0) is occupied by blocker 7, yet
the melee AI's cost array assigns it cost 1 — the same as the unoccupied
walkable tile — not a strictly higher constant (contrast
`generate_simple_costs_array`, which assigns it 5). -/
theorem c6_counterexample :
    (mapC6.tileAt 1 0).blocker = some 7 ∧ (mapC6.tileAt 1 0).is_walkable = true ∧
      melee_costs mapC6 = [1, 1] ∧ generate_simple_costs_array mapC6 = [1, 5] :=
  ⟨rfl, rfl, rfl, rfl⟩

/-- C6 witness: the characterization evaluated at the occupied walkable tile
(1, 0) of the counterexample map. -/
theorem c6_witness :
    (1 < mapC6.width ∧ 0 < mapC6.height) ∧
      (melee_costs mapC6).getD (coords_to_idx 1 0 mapC6.width) 0 =
        if (mapC6.tileAt 1 0).is_walkable then 1 else 0 :=
  ⟨⟨by decide, by decide⟩, c6_melee_costs_char mapC6 1 0 (by decide) (by decide)⟩

/-! ### C7: the scheduler drain -/

theorem popMinBy_eq_none {α : Type} (le : α → α → Bool) (l : List α)
    (h : popMinBy le l = none) : l = [] := by
  cases l with
  | nil => rfl
  | cons a rest =>
    have hs := popMinBy_isSome le a rest
    rw [h] at hs
    simp at hs

theorem popMinBy_min {α : Type} (le : α → α → Bool)
    (hrefl : ∀ a, le a a = true)
    (htrans : ∀ a b c, le a b = true → le b c = true → le a c = true)
    (htot : ∀ a b, le a b = true ∨ le b a = true)
    (l : List α) (m : α) (r : List α) (h : popMinBy le l = some (m, r)) :
    ∀ x ∈ l, le m x = true := by
  induction l generalizing m r with
  | nil => simp [popMinBy] at h
  | cons a rest ih =>
    rw [popMinBy] at h
    cases hrec : popMinBy le rest with
    | none =>
      have hnil := popMinBy_eq_none le rest hrec
      subst hnil
      rw [hrec] at h
      simp at h
      intro x hx
      rw [List.mem_singleton] at hx
      subst hx
      rw [← h.1]
      exact hrefl x
    | some p =>
      rw [hrec] at h
      by_cases hle : le a p.1 = true
      · simp [hle] at h
        intro x hx
        rcases List.mem_cons.mp hx with h1 | h1
        · subst h1
          rw [← h.1]
          exact hrefl x
        · rw [← h.1]
          exact htrans a p.1 x hle (ih p.1 p.2 (by rw [hrec]) x h1)
      · simp [hle] at h
        intro x hx
        rcases List.mem_cons.mp hx with h1 | h1
        · subst h1
          rw [← h.1]
          rcases htot x p.1 with h2 | h2
          · exact absurd h2 hle
          · exact h2
        · rw [← h.1]
          exact ih p.1 p.2 (by rw [hrec]) x h1

theorem actionLeB_refl (a : Action) : actionLeB a a = true := by
  simp [actionLeB]

theorem actionLeB_trans (a b c : Action) (h1 : actionLeB a b = true)
    (h2 : actionLeB b c = true) : actionLeB a c = true := by
  simp [actionLeB] at h1 h2 ⊢
  omega

theorem actionLeB_total (a b : Action) : actionLeB a b = true ∨ actionLeB b a = true := by
  simp [actionLeB]
  omega

theorem actionLeB_time_le (a b : Action) (h : actionLeB a b = true) : a.time ≤ b.time := by
  simp [actionLeB] at h
  omega

theorem perform_action_time {σ : Type} (lookup : σ → Nat → Option SchedObj)
    (melee : σ → Nat → σ × Nat) (s s1 : SchedState σ) (a : Action)
    (h : perform_action lookup melee s a = some s1) : s1.time = s.time := by
  unfold perform_action at h
  cases hl : lookup s.rest a.id with
  | none =>
    rw [hl] at h
    cases h
    rfl
  | some obj =>
    rw [hl] at h
    by_cases hal : obj.alive
    · simp [hal] at h
      cases hai : obj.ai with
      | none =>
        rw [hai] at h
        cases h
        rfl
      | some ty =>
        rw [hai] at h
        cases ty with
        | melee d =>
          simp at h
          rw [← h]
        | ranged => simp at h
    · simp [hal] at h
      cases h
      rfl

/-- C7: whenever `handle_monster_turns` returns (the clock is untouched by a
drain), no entry remaining in the queue is scheduled at or before the current
clock value — under the claim's precondition that every performed action
consumes strictly positive time (each popped actor is re-queued at its
scheduled time plus its action's duration, or dropped when absent, dead or
AI-less). -/
theorem c7_drain_clears_due {σ : Type} (lookup : σ → Nat → Option SchedObj)
    (melee : σ → Nat → σ × Nat) (fuel : Nat) (s s1 : SchedState σ)
    (hpos : ∀ (rest : σ) (id : Nat), 1 ≤ (melee rest id).2)
    (h : handle_monster_turns lookup melee fuel s = some s1) :
    s1.time = s.time ∧ ∀ a ∈ s1.queue, s.time < a.time := by
  induction fuel generalizing s with
  | zero => simp [handle_monster_turns] at h
  | succ fuel ih =>
    rw [handle_monster_turns] at h
    cases hpop : popMinBy actionLeB s.queue with
    | none =>
      rw [hpop] at h
      dsimp only at h
      cases h
      refine ⟨rfl, ?_⟩
      have hq := popMinBy_eq_none actionLeB _ hpop
      intro a ha
      rw [hq] at ha
      simp at ha
    | some p =>
      obtain ⟨top, restq⟩ := p
      rw [hpop] at h
      dsimp only at h
      by_cases htop : top.time > s.time
      · rw [if_pos htop] at h
        cases h
        refine ⟨rfl, ?_⟩
        intro a ha
        have hmin := popMinBy_min actionLeB actionLeB_refl actionLeB_trans actionLeB_total
          _ top restq hpop a ha
        have := actionLeB_time_le top a hmin
        omega
      · rw [if_neg htop] at h
        cases hperf : perform_action lookup melee { s with queue := restq } top with
        | none =>
          rw [hperf] at h
          cases h
        | some s2 =>
          rw [hperf] at h
          have htime : s2.time = s.time :=
            perform_action_time lookup melee { s with queue := restq } s2 top hperf
          have hres := ih s2 h
          rw [htime] at hres
          exact hres

/-- Concrete scheduler state for the C7 witness: one pending action for actor
1 at time 0, clock 0. -/
def schedW : SchedState Unit := ⟨[⟨0, 1⟩], 0, ()⟩

/-- Lookup oracle for the C7 witness: every id resolves to a live melee
actor. -/
def lookupW : Unit → Nat → Option SchedObj :=
  fun _ _ => some ⟨true, some (.melee MeleeAIData.mkNew)⟩

/-- Melee handler for the C7 witness: every turn takes 100 time units. -/
def meleeW : Unit → Nat → Unit × Nat := fun u _ => (u, 100)

/-- C7 witness: draining the concrete state empties it of due entries — the
actor acts once and is re-queued at time 100 > 0. -/
theorem c7_witness :
    (⟨[Action.mk 100 1], 0, ()⟩ : SchedState Unit).time = schedW.time ∧
      ∀ a ∈ (⟨[Action.mk 100 1], 0, ()⟩ : SchedState Unit).queue, schedW.time < a.time :=
  c7_drain_clears_due lookupW meleeW 3 schedW ⟨[Action.mk 100 1], 0, ()⟩
    (fun _ _ => by norm_num [meleeW]) rfl

/-! ### C2: the root's distance after construction -/

theorem popMinBy_mem {α : Type} (le : α → α → Bool) (l : List α) (m : α) (r : List α)
    (h : popMinBy le l = some (m, r)) : m ∈ l := by
  induction l generalizing m r with
  | nil => simp [popMinBy] at h
  | cons a rest ih =>
    rw [popMinBy] at h
    cases hrec : popMinBy le rest with
    | none =>
      rw [hrec] at h
      simp at h
      rw [← h.1]
      exact List.mem_cons_self _ _
    | some p =>
      rw [hrec] at h
      by_cases hle : le a p.1 = true
      · simp [hle] at h
        rw [← h.1]
        exact List.mem_cons_self _ _
      · simp [hle] at h
        rw [← h.1]
        exact List.mem_cons_of_mem _ (ih p.1 p.2 (by rw [hrec]))

theorem popMinBy_rest_mem {α : Type} (le : α → α → Bool) (l : List α) (m : α) (r : List α)
    (h : popMinBy le l = some (m, r)) : ∀ x ∈ r, x ∈ l := by
  induction l generalizing m r with
  | nil => simp [popMinBy] at h
  | cons a rest ih =>
    rw [popMinBy] at h
    cases hrec : popMinBy le rest with
    | none =>
      rw [hrec] at h
      simp at h
      intro x hx
      rw [h.2] at hx
      simp at hx
    | some p =>
      rw [hrec] at h
      by_cases hle : le a p.1 = true
      · simp [hle] at h
        intro x hx
        rw [← h.2] at hx
        exact List.mem_cons_of_mem _ hx
      · simp [hle] at h
        intro x hx
        rw [← h.2] at hx
        rcases List.mem_cons.mp hx with h1 | h1
        · exact h1 ▸ List.mem_cons_self _ _
        · exact List.mem_cons_of_mem _ (ih p.1 p.2 (by rw [hrec]) x h1)

theorem dijkstraLoop_eq_none (w h card diag : Nat) (costs : List Nat) (x : DijkstraState)
    (hpop : popMinBy tripLeB x.heap = none) :
    dijkstraLoop w h card diag costs x = x := by
  conv_lhs => rw [dijkstraLoop]
  split
  · rfl
  · rename_i c x1 y rest heq
    rw [hpop] at heq
    exact Option.noConfusion heq

theorem dijkstraLoop_eq_skip (w h card diag : Nat) (costs : List Nat) (x : DijkstraState)
    (c x1 y : Nat) (rest : List (Nat × Nat × Nat))
    (hpop : popMinBy tripLeB x.heap = some ((c, x1, y), rest))
    (hgt : c > x.dists.getD (coords_to_idx x1 y w) 0) :
    dijkstraLoop w h card diag costs x
      = dijkstraLoop w h card diag costs ⟨x.dists, x.prev, rest⟩ := by
  conv_lhs => rw [dijkstraLoop]
  split
  · rename_i heq
    rw [hpop] at heq
    exact Option.noConfusion heq
  · rename_i c' x1' y' rest' heq
    rw [hpop] at heq
    have heq2 := Option.some.inj heq
    cases heq2
    rw [if_pos hgt]

theorem dijkstraLoop_eq_relax (w h card diag : Nat) (costs : List Nat) (x : DijkstraState)
    (c x1 y : Nat) (rest : List (Nat × Nat × Nat))
    (hpop : popMinBy tripLeB x.heap = some ((c, x1, y), rest))
    (hgt : ¬ c > x.dists.getD (coords_to_idx x1 y w) 0) :
    dijkstraLoop w h card diag costs x
      = dijkstraLoop w h card diag costs
          (relaxAll w card diag h costs c (x1, y) dirs8 ⟨x.dists, x.prev, rest⟩) := by
  conv_lhs => rw [dijkstraLoop]
  split
  · rename_i heq
    rw [hpop] at heq
    exact Option.noConfusion heq
  · rename_i c' x1' y' rest' heq
    rw [hpop] at heq
    have := Option.some.inj heq
    cases this
    rw [if_neg hgt]

theorem relaxStep_zero_cost (w card diag h : Nat) (costs : List Nat) (c : Nat) (cur : Nat × Nat)
    (st : DijkstraState) (d : Int × Int) (j : Nat) (hc : costs.getD j 0 = 0) :
    (relaxStep w card diag h costs c cur st d).dists.getD j 0 = st.dists.getD j 0 := by
  unfold relaxStep
  by_cases h1 : inBoundsWH w h (toI16 cur.1 + d.1) (toI16 cur.2 + d.2)
  · rw [if_pos h1]
    by_cases h2 : costs.getD (coords_to_idx (toU16 (toI16 cur.1 + d.1))
        (toU16 (toI16 cur.2 + d.2)) w) 0 = 0
    · rw [if_pos h2]
    · rw [if_neg h2]
      by_cases h3 : (c + costs.getD (coords_to_idx (toU16 (toI16 cur.1 + d.1))
            (toU16 (toI16 cur.2 + d.2)) w) 0 +
            if d.1.natAbs + d.2.natAbs = 1 then card else diag) % 2 ^ 32 <
          st.dists.getD (coords_to_idx (toU16 (toI16 cur.1 + d.1))
            (toU16 (toI16 cur.2 + d.2)) w) 0
      · rw [if_pos h3]
        exact getD_set_ne _ _ _ _ (fun heq => h2 (heq ▸ hc))
      · rw [if_neg h3]
  · rw [if_neg h1]

theorem relaxAll_zero_cost (w card diag h : Nat) (costs : List Nat) (c : Nat) (cur : Nat × Nat)
    (dirs : List (Int × Int)) (st : DijkstraState) (j : Nat) (hc : costs.getD j 0 = 0) :
    (relaxAll w card diag h costs c cur dirs st).dists.getD j 0 = st.dists.getD j 0 := by
  induction dirs generalizing st with
  | nil => rfl
  | cons d rest ih =>
    rw [relaxAll, ih, relaxStep_zero_cost w card diag h costs c cur st d j hc]

/-- Cells whose cost entry is 0 are never relaxed: their distance never
changes from what it was when Dijkstra started. -/
theorem dijkstraLoop_zero_cost (w h card diag : Nat) (costs : List Nat) (st : DijkstraState) :
    ∀ j, costs.getD j 0 = 0 →
      (dijkstraLoop w h card diag costs st).dists.getD j 0 = st.dists.getD j 0 := by
  refine dijkstraLoop.induct w h card diag costs
    (fun x => ∀ j, costs.getD j 0 = 0 →
      (dijkstraLoop w h card diag costs x).dists.getD j 0 = x.dists.getD j 0) ?_ ?_ ?_ st
  · intro x hpop j hc
    rw [dijkstraLoop_eq_none w h card diag costs x hpop]
  · intro x c x1 y rest hpop hgt ih j hc
    rw [dijkstraLoop_eq_skip w h card diag costs x c x1 y rest hpop hgt]
    exact ih j hc
  · intro x c x1 y rest hpop hgt ih j hc
    rw [dijkstraLoop_eq_relax w h card diag costs x c x1 y rest hpop hgt]
    rw [ih j hc]
    exact relaxAll_zero_cost w card diag h costs c (x1, y) dirs8 _ j hc

/-- On a 1×1 grid every neighbour of (0, 0) is out of bounds, so a relaxation
pass changes nothing. -/
theorem relaxAll_1x1 (card diag : Nat) (costs : List Nat) (c : Nat) (st : DijkstraState) :
    relaxAll 1 card diag 1 costs c (0, 0) dirs8 st = st := by
  simp +decide [relaxAll, relaxStep, dirs8]

/-- On a 1×1 grid the distance array is never touched: the loop only ever
pops (0, 0) and never relaxes anything. -/
theorem dijkstraLoop_1x1 (card diag : Nat) (costs : List Nat) (st : DijkstraState) :
    (∀ e ∈ st.heap, e.2.1 = 0 ∧ e.2.2 = 0) →
      (dijkstraLoop 1 1 card diag costs st).dists = st.dists := by
  refine dijkstraLoop.induct 1 1 card diag costs
    (fun x => (∀ e ∈ x.heap, e.2.1 = 0 ∧ e.2.2 = 0) →
      (dijkstraLoop 1 1 card diag costs x).dists = x.dists) ?_ ?_ ?_ st
  · intro x hpop _
    rw [dijkstraLoop_eq_none 1 1 card diag costs x hpop]
  · intro x c x1 y rest hpop hgt ih hq
    rw [dijkstraLoop_eq_skip 1 1 card diag costs x c x1 y rest hpop hgt]
    exact ih (fun e he => hq e (popMinBy_rest_mem tripLeB x.heap _ rest hpop e he))
  · intro x c x1 y rest hpop hgt ih hq
    rw [dijkstraLoop_eq_relax 1 1 card diag costs x c x1 y rest hpop hgt]
    have hmem := popMinBy_mem tripLeB x.heap _ rest hpop
    have hxy := hq _ hmem
    simp only at hxy
    rw [hxy.1, hxy.2] at ih ⊢
    rw [relaxAll_1x1 card diag costs c ⟨x.dists, x.prev, rest⟩] at ih ⊢
    exact ih (fun e he => hq e (popMinBy_rest_mem tripLeB x.heap _ rest hpop e he))

/-- C2 (amended): Dijkstra never initialises the root's distance to 0 — the
distance array starts at the `u32::MAX` sentinel everywhere and the root's
entry can only ever be overwritten by a neighbour relaxation.  In particular
the distance recorded for the root is the sentinel `u32::MAX` (not 0)
whenever the root's own cost entry is 0, and likewise on any 1×1 grid even
with a positive root cost. -/
theorem c2_root_distance_not_zero (w h card diag : Nat) (costs : List Nat) (root : Nat × Nat)
    (hx : root.1 < w) (hy : root.2 < h) (hlen : costs.length = w * h)
    (hcase : costs.getD (coords_to_idx root.1 root.2 w) 0 = 0 ∨ (w = 1 ∧ h = 1)) :
    (dijkstraRun w h card diag costs root).dists.getD (coords_to_idx root.1 root.2 w) 0
      = u32MAX := by
  have hidx : coords_to_idx root.1 root.2 w < costs.length := by
    rw [hlen]
    unfold coords_to_idx
    calc root.1 + root.2 * w < w + root.2 * w := by omega
      _ = (root.2 + 1) * w := by ring
      _ ≤ h * w := Nat.mul_le_mul_right _ (by omega)
      _ = w * h := Nat.mul_comm _ _
  have hinit : (List.replicate costs.length u32MAX).getD (coords_to_idx root.1 root.2 w) 0
      = u32MAX := by
    rw [List.getD_eq_getElem?_getD, List.getElem?_replicate]
    simp [hidx]
  rcases hcase with hc | hwh
  · unfold dijkstraRun
    rw [dijkstraLoop_zero_cost w h card diag costs _ _ hc]
    exact hinit
  · obtain ⟨hw1, hh1⟩ := hwh
    subst hw1
    subst hh1
    have hr1 : root.1 = 0 := by omega
    have hr2 : root.2 = 0 := by omega
    unfold dijkstraRun
    rw [dijkstraLoop_1x1 card diag costs _
      (by intro e he; simp at he; rw [he]; exact ⟨hr1.symm ▸ rfl, hr2.symm ▸ rfl⟩)]
    exact hinit

/-- C2 counterexample: on the 1×1 walkable grid (cost array `[1]`, root
(0, 0), the melee AI's step costs 2 and 3) the constructed pathfinder's
distance from the root to the root cell is the sentinel `u32::MAX`
(= 2^32 - 1), not 0. -/
theorem c2_counterexample :
    (dijkstraRun 1 1 2 3 [1] (0, 0)).dists.getD (coords_to_idx 0 0 1) 0 = u32MAX ∧
      u32MAX ≠ 0 := by
  constructor
  · rw [dijkstraRun]
    simp [popMinBy, relaxAll, relaxStep, dirs8, inBoundsWH, toI16, toU16,
      coords_to_idx, u32MAX, usizeMAX, tripLeB, dijkstraLoop]
  · decide

/-- C2 witness: the amended theorem applied to the 1×1 walkable grid. -/
theorem c2_witness :
    ((0 : Nat) < 1 ∧ (0 : Nat) < 1 ∧ ([1] : List Nat).length = 1 * 1 ∧
        (([1] : List Nat).getD (coords_to_idx 0 0 1) 0 = 0 ∨ (1 = 1 ∧ 1 = 1))) ∧
      (dijkstraRun 1 1 2 3 [1] (0, 0)).dists.getD (coords_to_idx 0 0 1) 0 = u32MAX :=
  ⟨⟨Nat.zero_lt_one, Nat.zero_lt_one, rfl, Or.inr ⟨rfl, rfl⟩⟩,
    c2_root_distance_not_zero 1 1 2 3 [1] (0, 0) Nat.zero_lt_one Nat.zero_lt_one rfl
      (Or.inr ⟨rfl, rfl⟩)⟩

/-! ### C1: the melee AI on an unreachable target -/

/-- C1 (amended): when the remembered target's cell is unreached
(distance still the `u32::MAX` sentinel), `path_to` returns the
single-element sentinel path `[(490, 490)]` — length 1, not 0 — and the
melee AI therefore takes the length-one *melee attack* branch on the
out-of-grid sentinel coordinate (490, 490), consuming attack-speed time; it
does not take the zero-length flat-fallback-100 branch (that branch occurs
only when the target occupies the root cell itself). -/
theorem c1_unreachable_target_attacks_sentinel (m : GameMap)
    (monsterPos targetPos : Nat × Nat) (attack_time move_time : Nat) (pf : Pathfinder)
    (hpf : Pathfinder.new (melee_costs m) monsterPos m.width m.height 2 3 = some pf)
    (hunreach : pf.state.dists.getD (coords_to_idx targetPos.1 targetPos.2 pf.width) 0
      = u32MAX) :
    handle_melee_pathing m monsterPos targetPos = some [(490, 490)] ∧
      handle_melee_decision m monsterPos targetPos attack_time move_time
        = some (.attack (490, 490) attack_time) := by
  have hpath : handle_melee_pathing m monsterPos targetPos = some [(490, 490)] := by
    unfold handle_melee_pathing
    rw [hpf]
    dsimp only
    unfold Pathfinder.path_to pathTo
    rw [if_pos hunreach]
  refine ⟨hpath, ?_⟩
  unfold handle_melee_decision
  rw [hpath]
  rfl

/-- The concrete 3×1 map of the C1 scenario: floor, wall, floor — the
monster at (0, 0) cannot reach the target at (2, 0). -/
def mapC1 : GameMap :=
  { width := 3, height := 1, level := 1
    tiles := [Tile.mkNew .Floor, Tile.mkNew .Wall, Tile.mkNew .Floor]
    visible := [false, false, false], explored := [false, false, false]
    last_seen := [Renderable.defaultVal, Renderable.defaultVal, Renderable.defaultVal]
    objects := [] }

/-- The pathfinder `handle_melee_ai` builds on `mapC1` for a monster at
(0, 0). -/
def pfC1 : Pathfinder :=
  ⟨3, 1, melee_costs mapC1, (0, 0), 2, 3, dijkstraRun 3 1 2 3 (melee_costs mapC1) (0, 0)⟩

/-- C1 counterexample: on `mapC1` the target (2, 0) is unreachable from
(0, 0) (distance = the `u32::MAX` sentinel), yet the returned path is the
single-element sentinel `[(490, 490)]` of length 1 — not length 0 — and the
melee branch resolves a melee attack on (490, 490) with attack-speed time,
not the flat fallback of 100. -/
theorem c1_counterexample :
    (dijkstraRun 3 1 2 3 (melee_costs mapC1) (0, 0)).dists.getD (coords_to_idx 2 0 3) 0
        = u32MAX ∧
      handle_melee_pathing mapC1 (0, 0) (2, 0) = some [(490, 490)] ∧
      ([(490, 490)] : List (Nat × Nat)).length = 1 ∧
      handle_melee_decision mapC1 (0, 0) (2, 0) 100 100
        = some (.attack (490, 490) 100) := by
  have hdists : (dijkstraRun 3 1 2 3 (melee_costs mapC1) (0, 0)).dists
      = [u32MAX, u32MAX, u32MAX] := by
    rw [show melee_costs mapC1 = [1, 0, 1] from rfl, dijkstraRun]
    simp [popMinBy, relaxAll, relaxStep, dirs8, inBoundsWH, toI16, toU16,
      coords_to_idx, u32MAX, usizeMAX, tripLeB, dijkstraLoop]
  have hun1 : pfC1.state.dists.getD (coords_to_idx 2 0 pfC1.width) 0 = u32MAX := by
    show (dijkstraRun 3 1 2 3 (melee_costs mapC1) (0, 0)).dists.getD _ 0 = _
    rw [hdists]
    rfl
  have hpath : handle_melee_pathing mapC1 (0, 0) (2, 0) = some [(490, 490)] := by
    unfold handle_melee_pathing
    rw [show Pathfinder.new (melee_costs mapC1) (0, 0) mapC1.width mapC1.height 2 3
        = some pfC1 from rfl]
    dsimp only
    unfold Pathfinder.path_to pathTo
    rw [if_pos hun1]
  refine ⟨by rw [hdists]; rfl, hpath, rfl, ?_⟩
  unfold handle_melee_decision
  rw [hpath]
  rfl

/-- C1 witness: the amended theorem applied to the concrete blocked 3×1
map. -/
theorem c1_witness :
    (Pathfinder.new (melee_costs mapC1) (0, 0) mapC1.width mapC1.height 2 3 = some pfC1 ∧
        pfC1.state.dists.getD (coords_to_idx 2 0 pfC1.width) 0 = u32MAX) ∧
      handle_melee_pathing mapC1 (0, 0) (2, 0) = some [(490, 490)] ∧
        handle_melee_decision mapC1 (0, 0) (2, 0) 75 150
          = some (.attack (490, 490) 75) := by
  have hdists : (dijkstraRun 3 1 2 3 (melee_costs mapC1) (0, 0)).dists
      = [u32MAX, u32MAX, u32MAX] := by
    rw [show melee_costs mapC1 = [1, 0, 1] from rfl, dijkstraRun]
    simp [popMinBy, relaxAll, relaxStep, dirs8, inBoundsWH, toI16, toU16,
      coords_to_idx, u32MAX, usizeMAX, tripLeB, dijkstraLoop]
  have hun : pfC1.state.dists.getD (coords_to_idx 2 0 pfC1.width) 0 = u32MAX := by
    show (dijkstraRun 3 1 2 3 (melee_costs mapC1) (0, 0)).dists.getD _ 0 = _
    rw [hdists]
    rfl
  exact ⟨⟨rfl, hun⟩,
    c1_unreachable_target_attacks_sentinel mapC1 (0, 0) (2, 0) 75 150 pfC1 rfl hun⟩

/-! ### C8: dungeon generation layout -/

theorem lookup_filter_ne (s : ObjStore) (id banned : Nat) (h : id ≠ banned) :
    ObjStore.lookup (List.filter (fun e => decide (e.1 ≠ banned)) s) id = s.lookup id := by
  induction s with
  | nil => rfl
  | cons e rest ih =>
    by_cases hk : e.1 = banned
    · rw [List.filter_cons_of_neg (by simp [hk])]
      rw [ih]
      rw [ObjStore.lookup]
      rw [if_neg (by rw [hk]; exact fun hh => h hh.symm)]
    · rw [List.filter_cons_of_pos (by simp [hk])]
      rw [ObjStore.lookup, ObjStore.lookup]
      by_cases he : e.1 = id
      · rw [if_pos he, if_pos he]
      · rw [if_neg he, if_neg he, ih]

theorem lookup_insert_self (s : ObjStore) (id : Nat) (p : Position) :
    (s.insert id p).lookup id = some p := by
  unfold ObjStore.insert
  rw [ObjStore.lookup, if_pos rfl]

theorem lookup_insert_ne (s : ObjStore) (id other : Nat) (p : Position) (h : id ≠ other) :
    (s.insert other p).lookup id = s.lookup id := by
  unfold ObjStore.insert
  rw [ObjStore.lookup, if_neg (fun hh => h hh.symm), lookup_filter_ne s id other h]

theorem place_blocker_parts (m m2 : GameMap) (id x y : Nat)
    (h : m.place_blocker id x y = some m2) :
    ∃ t, m.tiles.get? (coords_to_idx x y m.width) = some t ∧
      t.is_walkable = true ∧ t.blocker = none ∧
      m2.width = m.width ∧ m2.height = m.height ∧
      m2.objects = m.objects.insert id ⟨x, y⟩ ∧
      m2.tiles = m.tiles.set (coords_to_idx x y m.width) { t with blocker := some id } := by
  unfold GameMap.place_blocker at h
  cases hget : m.tiles.get? (coords_to_idx x y m.width) with
  | none => rw [hget] at h; cases h
  | some t =>
    rw [hget] at h
    dsimp only at h
    by_cases hc : t.is_walkable && t.blocker.isNone
    · rw [if_pos hc] at h
      cases h
      simp only [Bool.and_eq_true, Option.isNone_iff_eq_none] at hc
      exact ⟨t, rfl, hc.1, hc.2, rfl, rfl, rfl, rfl⟩
    · rw [if_neg hc] at h
      cases h

theorem place_item_parts (m m2 : GameMap) (id x y : Nat)
    (h : m.place_item id x y = some m2) :
    ∃ t, m.tiles.get? (coords_to_idx x y m.width) = some t ∧
      t.is_walkable = true ∧ t.item = none ∧
      m2.width = m.width ∧ m2.height = m.height ∧
      m2.objects = m.objects.insert id ⟨x, y⟩ ∧
      m2.tiles = m.tiles.set (coords_to_idx x y m.width) { t with item := some id } := by
  unfold GameMap.place_item at h
  cases hget : m.tiles.get? (coords_to_idx x y m.width) with
  | none => rw [hget] at h; cases h
  | some t =>
    rw [hget] at h
    dsimp only at h
    by_cases hc : t.is_walkable && t.item.isNone
    · rw [if_pos hc] at h
      cases h
      simp only [Bool.and_eq_true, Option.isNone_iff_eq_none] at hc
      exact ⟨t, rfl, hc.1, hc.2, rfl, rfl, rfl, rfl⟩
    · rw [if_neg hc] at h
      cases h

theorem foldl_or_intersects_false (rooms : List RectRoom) (nr : RectRoom) :
    ∀ b, rooms.foldl (fun b room => b || room.intersects nr) b = false →
      b = false ∧ ∀ room ∈ rooms, room.intersects nr = false := by
  induction rooms with
  | nil =>
    intro b hb
    exact ⟨hb, by intro room hr; simp at hr⟩
  | cons a rest ih =>
    intro b hb
    rw [List.foldl_cons] at hb
    obtain ⟨hor, hall⟩ := ih _ hb
    rw [Bool.or_eq_false_iff] at hor
    refine ⟨hor.1, ?_⟩
    intro room hr
    rcases List.mem_cons.mp hr with h1 | h1
    · rw [h1]; exact hor.2
    · exact hall room h1

/-- The invariant the room loop maintains on the accepted list: rooms are
pairwise non-intersecting (in acceptance order) and each has well-ordered
corners. -/
def RoomsOk (rooms : List RectRoom) : Prop :=
  rooms.Pairwise (fun a b => a.intersects b = false) ∧
    ∀ rm ∈ rooms, rm.x1 ≤ rm.x2 ∧ rm.y1 ≤ rm.y2

theorem room_loop_rooms_ok (r : Rng) (cfg : DungeonConfig) :
    ∀ (n k : Nat) (dungeon : GameMap) (rooms : List RectRoom)
      (res : GameMap × List RectRoom × Nat),
      RoomsOk rooms → room_loop r cfg n k dungeon rooms = some res → RoomsOk res.2.1 := by
  intro n
  induction n with
  | zero =>
    intro k dungeon rooms res hok h
    unfold room_loop at h
    cases h
    exact hok
  | succ n ih =>
    intro k dungeon rooms res hok h
    unfold room_loop at h
    cases h1 : randRangeIncl r k cfg.room_min_width cfg.room_max_width with
    | none => rw [h1] at h; cases h
    | some p1 =>
      rw [h1] at h
      dsimp only at h
      cases h2 : randRangeIncl r p1.2 cfg.room_min_height cfg.room_max_height with
      | none => rw [h2] at h; cases h
      | some p2 =>
        rw [h2] at h
        dsimp only at h
        by_cases hfit : p1.1 ≤ dungeon.width ∧ p2.1 ≤ dungeon.height
        · rw [if_pos hfit] at h
          cases h3 : randRangeExcl r p2.2 0 (dungeon.width - p1.1) with
          | none => rw [h3] at h; cases h
          | some p3 =>
            rw [h3] at h
            dsimp only at h
            cases h4 : randRangeExcl r p3.2 0 (dungeon.height - p2.1) with
            | none => rw [h4] at h; cases h
            | some p4 =>
              rw [h4] at h
              dsimp only at h
              by_cases hint : rooms.foldl
                  (fun b room => b || room.intersects (RectRoom.mkNew p3.1 p4.1 p1.1 p2.1)) false
                = true
              · rw [if_pos hint] at h
                exact ih _ _ _ _ hok h
              · rw [if_neg hint] at h
                rw [Bool.not_eq_true] at hint
                have hnew := foldl_or_intersects_false rooms
                  (RectRoom.mkNew p3.1 p4.1 p1.1 p2.1) false hint
                have hok2 : RoomsOk (rooms ++ [RectRoom.mkNew p3.1 p4.1 p1.1 p2.1]) := by
                  constructor
                  · rw [List.pairwise_append]
                    refine ⟨hok.1, List.pairwise_singleton _ _, ?_⟩
                    intro a ha b hb
                    rw [List.mem_singleton] at hb
                    rw [hb]
                    exact hnew.2 a ha
                  · intro rm hrm
                    rcases List.mem_append.mp hrm with h5 | h5
                    · exact hok.2 rm h5
                    · rw [List.mem_singleton] at h5
                      rw [h5]
                      constructor <;> simp [RectRoom.mkNew]
                cases h5 : carveList dungeon (RectRoom.mkNew p3.1 p4.1 p1.1 p2.1).inner with
                | none => rw [h5] at h; cases h
                | some d1 =>
                  rw [h5] at h
                  dsimp only at h
                  cases h6 : rooms.getLast? with
                  | none =>
                    rw [h6] at h
                    exact ih _ _ _ _ hok2 h
                  | some lastR =>
                    rw [h6] at h
                    dsimp only at h
                    cases h7 : carveList d1
                        (tunnel_between r p4.2 lastR.center
                          (RectRoom.mkNew p3.1 p4.1 p1.1 p2.1).center).1 with
                    | none => rw [h7] at h; cases h
                    | some d2 =>
                      rw [h7] at h
                      exact ih _ _ _ _ hok2 h
        · rw [if_neg hfit] at h
          cases h

theorem place_objects_loop_next_id_mono (r : Rng) (room : RectRoom)
    (weights : List (Object × Nat)) (is_item : Bool) :
    ∀ (n k : Nat) (app : App) (dungeon : GameMap) (res : App × GameMap × Nat),
      place_objects_loop r room weights is_item n k app dungeon = some res →
      app.objects.next_id ≤ res.1.objects.next_id := by
  intro n
  induction n with
  | zero =>
    intro k app dungeon res h
    unfold place_objects_loop at h
    cases h
    exact le_refl _
  | succ n ih =>
    intro k app dungeon res h
    unfold place_objects_loop at h
    cases h1 : randRangeExcl r k (room.x1 + 1) room.x2 with
    | none => rw [h1] at h; cases h
    | some p1 =>
      rw [h1] at h
      dsimp only at h
      cases h2 : randRangeExcl r p1.2 (room.y1 + 1) room.y2 with
      | none => rw [h2] at h; cases h
      | some p2 =>
        rw [h2] at h
        dsimp only at h
        cases h3 : dungeon.tiles.get? (coords_to_idx p1.1 p2.1 dungeon.width) with
        | none => rw [h3] at h; cases h
        | some t =>
          rw [h3] at h
          dsimp only at h
          by_cases hocc : (if is_item then t.item.isSome else t.blocker.isSome) = true
          · rw [if_pos hocc] at h
            exact ih _ _ _ _ h
          · rw [if_neg hocc] at h
            cases h4 : weightedPick r p2.2 (weights.map (fun e => e.2)) with
            | none => rw [h4] at h; cases h
            | some p4 =>
              rw [h4] at h
              dsimp only at h
              cases h5 : weights.get? p4.1 with
              | none => rw [h5] at h; cases h
              | some we =>
                rw [h5] at h
                dsimp only at h
                cases h6 : (if is_item then dungeon.place_item (app.objects.add we.1).2 p1.1 p2.1
                    else dungeon.place_blocker (app.objects.add we.1).2 p1.1 p2.1) with
                | none => rw [h6] at h; cases h
                | some d1 =>
                  rw [h6] at h
                  dsimp only at h
                  have hrec := ih _ _ _ _ h
                  have : app.objects.next_id + 1 ≤ res.1.objects.next_id := by
                    refine le_trans (le_of_eq ?_) hrec
                    by_cases hai : we.1.ai.isSome = true
                    · rw [if_pos hai]
                      rfl
                    · rw [if_neg hai]
                      rfl
                  omega

theorem place_objects_next_id_mono (r : Rng) (room : RectRoom)
    (weights : List (Object × Nat)) (max_objects : Nat) (is_item : Bool) (k : Nat)
    (app : App) (dungeon : GameMap) (res : App × GameMap × Nat)
    (h : place_objects r room weights max_objects is_item k app dungeon = some res) :
    app.objects.next_id ≤ res.1.objects.next_id := by
  unfold place_objects at h
  by_cases hz : (weights.map (fun e => e.2)).sum = 0
  · rw [if_pos hz] at h; cases h
  · rw [if_neg hz] at h
    cases h1 : randRangeIncl r k 0 max_objects with
    | none => rw [h1] at h; cases h
    | some p1 =>
      rw [h1] at h
      dsimp only at h
      exact place_objects_loop_next_id_mono r room weights is_item _ _ _ _ _ h

theorem populate_rooms_next_id_mono (r : Rng) :
    ∀ (rooms : List RectRoom) (k : Nat) (app : App) (dungeon : GameMap)
      (res : App × GameMap × Nat),
      populate_rooms r rooms k app dungeon = some res →
      app.objects.next_id ≤ res.1.objects.next_id := by
  intro rooms
  induction rooms with
  | nil =>
    intro k app dungeon res h
    unfold populate_rooms at h
    cases h
    exact le_refl _
  | cons room rest ih =>
    intro k app dungeon res h
    unfold populate_rooms at h
    cases h1 : place_objects r room (monster_table dungeon.level)
        (from_dungeon_level MAX_MONSTERS_TABLE dungeon.level) false k app dungeon with
    | none => rw [h1] at h; cases h
    | some r1 =>
      rw [h1] at h
      dsimp only at h
      cases h2 : place_objects r room (item_table r1.2.1.level)
          (from_dungeon_level MAX_ITEMS_TABLE r1.2.1.level) true r1.2.2 r1.1 r1.2.1 with
      | none => rw [h2] at h; cases h
      | some r2 =>
        rw [h2] at h
        dsimp only at h
        have m1 := place_objects_next_id_mono r room _ _ false k app dungeon r1 h1
        have m2 := place_objects_next_id_mono r room _ _ true r1.2.2 r1.1 r1.2.1 r2 h2
        have m3 := ih _ _ _ _ h
        omega

theorem getD_set_self' {α : Type} (l : List α) (i : Nat) (v d : α) (h : i < l.length) :
    (l.set i v).getD i d = v := by
  simp [List.getD_eq_getElem?_getD, List.getElem?_set_self h]

/-- C8 (amended): whenever dungeon generation completes without a
mid-generation panic (a spawned monster or item can occupy a room center and
make the final player or stairs placement panic, and the buggy tunnel
rasterizer can write out of bounds), at least one room was accepted, the
accepted rooms are pairwise non-intersecting, the player is recorded at the
center of the first accepted room (inside its rectangle) and a freshly
allocated stairs object sits at the center of the last accepted room (inside
its rectangle). -/
theorem c8_generation_layout (r : Rng) (cfg : DungeonConfig) (app app' : App)
    (hmax : 1 ≤ cfg.max_rooms)
    (hw : cfg.room_min_width ≤ cfg.room_max_width ∧ cfg.room_max_width < cfg.width)
    (hh : cfg.room_min_height ≤ cfg.room_max_height ∧ cfg.room_max_height < cfg.height)
    (hplayer : PLAYER < app.objects.next_id)
    (hgen : generate_dungeon r cfg app = some app') :
    ∃ (dRooms : GameMap) (rooms : List RectRoom) (kAfter : Nat) (firstR lastR : RectRoom)
      (sid : Nat),
      room_loop r cfg cfg.max_rooms 0 (GameMap.mkNew cfg.width cfg.height cfg.level) []
          = some (dRooms, rooms, kAfter) ∧
        rooms ≠ [] ∧
        rooms.Pairwise (fun a b => a.intersects b = false) ∧
        rooms.head? = some firstR ∧
        rooms.getLast? = some lastR ∧
        app'.gamemap.get_position PLAYER = some ⟨firstR.center.1, firstR.center.2⟩ ∧
        firstR.x1 ≤ firstR.center.1 ∧ firstR.center.1 ≤ firstR.x2 ∧
        firstR.y1 ≤ firstR.center.2 ∧ firstR.center.2 ≤ firstR.y2 ∧
        sid ≠ PLAYER ∧
        app'.gamemap.get_position sid = some ⟨lastR.center.1, lastR.center.2⟩ ∧
        (app'.gamemap.tileAt lastR.center.1 lastR.center.2).item = some sid ∧
        lastR.x1 ≤ lastR.center.1 ∧ lastR.center.1 ≤ lastR.x2 ∧
        lastR.y1 ≤ lastR.center.2 ∧ lastR.center.2 ≤ lastR.y2 := by
  unfold generate_dungeon at hgen
  cases hrl : room_loop r cfg cfg.max_rooms 0 (GameMap.mkNew cfg.width cfg.height cfg.level) []
    with
  | none => rw [hrl] at hgen; cases hgen
  | some p =>
    obtain ⟨d1, rooms, k1⟩ := p
    rw [hrl] at hgen
    dsimp only at hgen
    cases hpop : populate_rooms r rooms k1 app d1 with
    | none => rw [hpop] at hgen; cases hgen
    | some q =>
      obtain ⟨a1, d2, k2⟩ := q
      rw [hpop] at hgen
      dsimp only at hgen
      cases hhead : rooms.head? with
      | none => rw [hhead] at hgen; cases hgen
      | some firstR =>
        rw [hhead] at hgen
        dsimp only at hgen
        cases hpb : d2.place_blocker PLAYER firstR.center.1 firstR.center.2 with
        | none => rw [hpb] at hgen; cases hgen
        | some d3 =>
          rw [hpb] at hgen
          dsimp only at hgen
          cases hlast : rooms.getLast? with
          | none => rw [hlast] at hgen; cases hgen
          | some lastR =>
            rw [hlast] at hgen
            dsimp only at hgen
            cases hpi : d3.place_item (a1.objects.add stairsEntity).2
                lastR.center.1 lastR.center.2 with
            | none => rw [hpi] at hgen; cases hgen
            | some d4 =>
              rw [hpi] at hgen
              dsimp only at hgen
              cases hgen
              -- the app is now the record with gamemap d4
              have hok : RoomsOk rooms :=
                room_loop_rooms_ok r cfg cfg.max_rooms 0 _ [] (d1, rooms, k1)
                  ⟨List.Pairwise.nil, by intro rm hrm; simp at hrm⟩ hrl
              have hne : rooms ≠ [] := by
                intro hnil
                rw [hnil] at hhead
                simp at hhead
              have hsid : PLAYER < a1.objects.next_id :=
                lt_of_lt_of_le hplayer
                  (populate_rooms_next_id_mono r rooms k1 app d1 (a1, d2, k2) hpop)
              obtain ⟨tb, htb, _, _, hw3, hh3, hobj3, htiles3⟩ :=
                place_blocker_parts d2 d3 PLAYER firstR.center.1 firstR.center.2 hpb
              obtain ⟨ti, hti, _, _, hw4, hh4, hobj4, htiles4⟩ :=
                place_item_parts d3 d4 (a1.objects.add stairsEntity).2
                  lastR.center.1 lastR.center.2 hpi
              have hfmem : firstR ∈ rooms := List.mem_of_mem_head? hhead
              have hlmem : lastR ∈ rooms := List.mem_of_getLast?_eq_some hlast
              have hfb := hok.2 firstR hfmem
              have hlb := hok.2 lastR hlmem
              have hsidne : (a1.objects.add stairsEntity).2 ≠ PLAYER := by
                show a1.objects.next_id ≠ PLAYER
                omega
              refine ⟨d1, rooms, k1, firstR, lastR, (a1.objects.add stairsEntity).2,
                rfl, hne, hok.1, hhead, hlast, ?_, ?_, ?_, ?_, ?_, hsidne, ?_, ?_,
                ?_, ?_, ?_, ?_⟩
              · show d4.get_position PLAYER = _
                unfold GameMap.get_position
                rw [hobj4, lookup_insert_ne _ _ _ _ (fun hh => hsidne hh.symm), hobj3,
                  lookup_insert_self]
              · unfold RectRoom.center
                dsimp only
                omega
              · unfold RectRoom.center
                dsimp only
                omega
              · unfold RectRoom.center
                dsimp only
                omega
              · unfold RectRoom.center
                dsimp only
                omega
              · show d4.get_position _ = _
                unfold GameMap.get_position
                rw [hobj4, lookup_insert_self]
              · show (d4.tileAt lastR.center.1 lastR.center.2).item = _
                unfold GameMap.tileAt
                rw [htiles4, hw4]
                have hlt : coords_to_idx lastR.center.1 lastR.center.2 d3.width
                    < d3.tiles.length := by
                  cases hg : d3.tiles.get? (coords_to_idx lastR.center.1 lastR.center.2
                      d3.width) with
                  | none => rw [hg] at hti; cases hti
                  | some _ => exact (List.get?_eq_some.mp (hti)).1
                rw [getD_set_self' _ _ _ _ hlt]
              · unfold RectRoom.center
                dsimp only
                omega
              · unfold RectRoom.center
                dsimp only
                omega
              · unfold RectRoom.center
                dsimp only
                omega
              · unfold RectRoom.center
                dsimp only
                omega

/-- A 10×8 grid with exactly one 4×4 room attempt. -/
def cfgW : DungeonConfig := ⟨1, 4, 4, 4, 4, 10, 8, 1⟩

/-- Oracle whose draws make the single accepted room ⟨1,1,5,5⟩ (center (3,3)),
then spawn one orc exactly at (3,3) and zero items: the final player placement
hits the orc's blocker slot and panics. -/
def rngBad : Rng := fun k => [0, 0, 1, 1, 1, 1, 1, 0, 0].getD k 0

/-- Oracle whose draws make the same room but spawn zero monsters and zero
items, so generation completes. -/
def rngGood : Rng := fun k => [0, 0, 1, 1, 0, 0].getD k 0

/-- A freshly started app: the player entity holds id 0 and nothing else is
allocated. -/
def app0W : App :=
  { gamemap := GameMap.mkNew 1 1 1
    objects := ⟨1, [(0, playerEntity)]⟩
    action_queue := []
    time := 0
    inventory := []
    equipment := []
    log := [] }

/-- The app produced by the completing generation run. -/
def appGood : App := (generate_dungeon rngGood cfgW app0W).getD app0W

/-- C8 counterexample: with `max_rooms = 1` and a 4×4 room range fitting the
10×8 grid, a run whose population draws drop an orc on the accepted room's
center panics when the player is placed there (`place_blocker` finds the
blocker slot taken), so generation as a whole fails: the claim's unconditional
layout guarantee does not hold. -/
theorem c8_counterexample : generate_dungeon rngBad cfgW app0W = none := by rfl

/-- C8 witness: a completing run on the same configuration, with the layout
conclusions evaluated at its concrete output. -/
theorem c8_witness :
    (1 ≤ cfgW.max_rooms ∧
      (cfgW.room_min_width ≤ cfgW.room_max_width ∧ cfgW.room_max_width < cfgW.width) ∧
      (cfgW.room_min_height ≤ cfgW.room_max_height ∧ cfgW.room_max_height < cfgW.height) ∧
      PLAYER < app0W.objects.next_id ∧
      generate_dungeon rngGood cfgW app0W = some appGood) ∧
    (∃ (dRooms : GameMap) (rooms : List RectRoom) (kAfter : Nat) (firstR lastR : RectRoom)
      (sid : Nat),
      room_loop rngGood cfgW cfgW.max_rooms 0
          (GameMap.mkNew cfgW.width cfgW.height cfgW.level) []
          = some (dRooms, rooms, kAfter) ∧
        rooms ≠ [] ∧
        rooms.Pairwise (fun a b => a.intersects b = false) ∧
        rooms.head? = some firstR ∧
        rooms.getLast? = some lastR ∧
        appGood.gamemap.get_position PLAYER = some ⟨firstR.center.1, firstR.center.2⟩ ∧
        firstR.x1 ≤ firstR.center.1 ∧ firstR.center.1 ≤ firstR.x2 ∧
        firstR.y1 ≤ firstR.center.2 ∧ firstR.center.2 ≤ firstR.y2 ∧
        sid ≠ PLAYER ∧
        appGood.gamemap.get_position sid = some ⟨lastR.center.1, lastR.center.2⟩ ∧
        (appGood.gamemap.tileAt lastR.center.1 lastR.center.2).item = some sid ∧
        lastR.x1 ≤ lastR.center.1 ∧ lastR.center.1 ≤ lastR.x2 ∧
        lastR.y1 ≤ lastR.center.2 ∧ lastR.center.2 ≤ lastR.y2) :=
  ⟨⟨by decide, by decide, by decide, by decide, by rfl⟩,
   c8_generation_layout rngGood cfgW app0W appGood (by decide) (by decide) (by decide)
     (by decide) (by rfl)⟩

/-! ### C10: id-to-position map vs tile occupancy -/

/-- One mutating map call from the claim's repertoire. -/
inductive MapOp where
  | placeBlocker (id x y : Nat)
  | placeItem (id x y : Nat)
  | removeBlocker (x y : Nat)
  | removeItem (x y : Nat)
  | areaPlaceItem (x y id : Nat) (shuffle : Nat → List (Int × Int))

/-- Run one call, restricted as the claim demands to sequences in which no id
is placed while already present on the map (a placement of a present id is
excluded, i.e. not a "successful call" of the claimed kind). -/
def applyOp (m : GameMap) : MapOp → Option GameMap
  | .placeBlocker id x y =>
    if m.get_position id = none then m.place_blocker id x y else none
  | .placeItem id x y =>
    if m.get_position id = none then m.place_item id x y else none
  | .removeBlocker x y => (m.remove_blocker x y).map (fun pr => pr.1)
  | .removeItem x y => (m.remove_item x y).map (fun pr => pr.1)
  | .areaPlaceItem x y id shuffle =>
    if m.get_position id = none then
      (m.area_place_item x y id shuffle).map (fun pr => pr.1)
    else none

/-- Run a sequence of calls, all succeeding. -/
def applyOps : GameMap → List MapOp → Option GameMap
  | m, [] => some m
  | m, op :: rest =>
    match applyOp m op with
    | none => none
    | some m1 => applyOps m1 rest

/-- The call's coordinate argument is inside the `w × h` grid. -/
def MapOp.inB (w h : Nat) : MapOp → Bool
  | .placeBlocker _ x y => decide (x < w) && decide (y < h)
  | .placeItem _ x y => decide (x < w) && decide (y < h)
  | .removeBlocker x y => decide (x < w) && decide (y < h)
  | .removeItem x y => decide (x < w) && decide (y < h)
  | .areaPlaceItem x y _ _ => decide (x < w) && decide (y < h)

/-- The id↔tile consistency invariant: for in-bounds coordinates,
`get_position` points at `(x, y)` exactly when the tile there references the
id; every recorded position is in bounds; and no tile holds the same id in
both its blocker and its item slot. -/
def MapInv (m : GameMap) : Prop :=
  (∀ id x y, x < m.width → y < m.height →
    (m.get_position id = some ⟨x, y⟩ ↔
      ((m.tileAt x y).blocker = some id ∨ (m.tileAt x y).item = some id))) ∧
  (∀ id p, m.get_position id = some p → p.x < m.width ∧ p.y < m.height) ∧
  (∀ id x y, x < m.width → y < m.height →
    ¬((m.tileAt x y).blocker = some id ∧ (m.tileAt x y).item = some id))

/-- A 2×2 all-floor map with no objects (the all-wall `GameMap::new` output
admits no successful placement at all; floors are carved by generation
writing tiles directly). -/
def floorMap2 : GameMap :=
  { width := 2
    height := 2
    level := 1
    tiles := List.replicate 4 (Tile.mkNew .Floor)
    visible := List.replicate 4 false
    explored := List.replicate 4 false
    last_seen := List.replicate 4 Renderable.defaultVal
    objects := [] }

/-- A sequence exercising all five calls at in-bounds coordinates. -/
def opsW : List MapOp :=
  [.placeBlocker 5 0 0, .placeItem 6 1 1, .removeBlocker 0 0,
   .areaPlaceItem 0 0 7 (fun _ => [])]

/-- The maps after each of the first three (structurally evaluable) calls. -/
def map1 : GameMap := (applyOp floorMap2 (.placeBlocker 5 0 0)).getD floorMap2

def map2 : GameMap := (applyOp map1 (.placeItem 6 1 1)).getD map1

def map3 : GameMap := (applyOp map2 (.removeBlocker 0 0)).getD map2

/-- The map the full sequence produces: the area drop lands on the freed
start cell. -/
def mapW : GameMap := (map3.place_item 7 0 0).getD map3

theorem getD_set_ne' {α : Type} (l : List α) (i j : Nat) (v d : α) (h : i ≠ j) :
    (l.set i v).getD j d = l.getD j d := by
  simp [List.getD_eq_getElem?_getD, List.getElem?_set_ne h]

theorem getD_of_get? {α : Type} (l : List α) (i : Nat) (t d : α) (h : l.get? i = some t) :
    l.getD i d = t := by
  rw [List.getD_eq_getElem?_getD, ← List.get?_eq_getElem?, h]
  rfl

theorem lookup_remove_self (s : ObjStore) (id : Nat) :
    (s.remove id).lookup id = none := by
  induction s with
  | nil => rfl
  | cons e rest ih =>
    unfold ObjStore.remove at ih ⊢
    by_cases hk : e.1 = id
    · rw [List.filter_cons_of_neg (by simp [hk])]
      exact ih
    · rw [List.filter_cons_of_pos (by simp [hk]), ObjStore.lookup, if_neg hk]
      exact ih

theorem lookup_remove_ne (s : ObjStore) (id banned : Nat) (h : id ≠ banned) :
    (s.remove banned).lookup id = s.lookup id := by
  unfold ObjStore.remove
  exact lookup_filter_ne s id banned h

theorem remove_blocker_parts (m : GameMap) (pr : GameMap × Nat) (x y : Nat)
    (h : m.remove_blocker x y = some pr) :
    ∃ t, m.tiles.get? (coords_to_idx x y m.width) = some t ∧
      t.blocker = some pr.2 ∧
      pr.1.width = m.width ∧ pr.1.height = m.height ∧
      pr.1.objects = m.objects.remove pr.2 ∧
      pr.1.tiles = m.tiles.set (coords_to_idx x y m.width) { t with blocker := none } := by
  unfold GameMap.remove_blocker at h
  cases hget : m.tiles.get? (coords_to_idx x y m.width) with
  | none => rw [hget] at h; cases h
  | some t =>
    rw [hget] at h
    dsimp only at h
    cases hb : t.blocker with
    | none => rw [hb] at h; cases h
    | some id0 =>
      rw [hb] at h
      dsimp only at h
      cases h
      exact ⟨t, rfl, hb, rfl, rfl, rfl, rfl⟩

theorem remove_item_parts (m : GameMap) (pr : GameMap × Nat) (x y : Nat)
    (h : m.remove_item x y = some pr) :
    ∃ t, m.tiles.get? (coords_to_idx x y m.width) = some t ∧
      t.item = some pr.2 ∧
      pr.1.width = m.width ∧ pr.1.height = m.height ∧
      pr.1.objects = m.objects.remove pr.2 ∧
      pr.1.tiles = m.tiles.set (coords_to_idx x y m.width) { t with item := none } := by
  unfold GameMap.remove_item at h
  cases hget : m.tiles.get? (coords_to_idx x y m.width) with
  | none => rw [hget] at h; cases h
  | some t =>
    rw [hget] at h
    dsimp only at h
    cases hb : t.item with
    | none => rw [hb] at h; cases h
    | some id0 =>
      rw [hb] at h
      dsimp only at h
      cases h
      exact ⟨t, rfl, hb, rfl, rfl, rfl, rfl⟩

theorem floorMap2_tile_free (x y : Nat) :
    (floorMap2.tileAt x y).blocker = none ∧ (floorMap2.tileAt x y).item = none := by
  unfold GameMap.tileAt floorMap2
  dsimp only
  rw [List.getD_eq_getElem?_getD, List.getElem?_replicate]
  split <;> exact ⟨rfl, rfl⟩

theorem inv_floorMap2 : MapInv floorMap2 := by
  refine ⟨?_, ?_, ?_⟩
  · intro id x y _ _
    constructor
    · intro h
      exact Option.noConfusion h
    · intro h
      rcases h with h | h
      · rw [(floorMap2_tile_free x y).1] at h
        exact Option.noConfusion h
      · rw [(floorMap2_tile_free x y).2] at h
        exact Option.noConfusion h
  · intro id p hp
    exact Option.noConfusion hp
  · intro id x y _ _
    rintro ⟨h1, _⟩
    rw [(floorMap2_tile_free x y).1] at h1
    exact Option.noConfusion h1

theorem inv_place_blocker (m m2 : GameMap) (id x y : Nat)
    (hx : x < m.width) (hy : y < m.height)
    (hfresh : m.get_position id = none) (hinv : MapInv m)
    (h : m.place_blocker id x y = some m2) : MapInv m2 := by
  obtain ⟨hiff, hbnd, hdup⟩ := hinv
  obtain ⟨t, hget, hwalk, hbfree, hw, hh, hobj, htiles⟩ := place_blocker_parts m m2 id x y h
  have hidx : coords_to_idx x y m.width < m.tiles.length := (List.get?_eq_some.mp hget).1
  have htm : m.tileAt x y = t := getD_of_get? _ _ _ _ hget
  have ht2self : m2.tileAt x y = { t with blocker := some id } := by
    unfold GameMap.tileAt
    rw [htiles, hw]
    exact getD_set_self' _ _ _ _ hidx
  have ht2ne : ∀ x' y', x' < m.width → (x', y') ≠ (x, y) → m2.tileAt x' y' = m.tileAt x' y' := by
    intro x' y' hx' hne
    unfold GameMap.tileAt
    rw [htiles, hw]
    refine getD_set_ne' _ _ _ _ _ ?_
    intro heq
    obtain ⟨e1, e2⟩ := coords_to_idx_inj m.width x y x' y' hx hx' heq
    exact hne (by rw [e1, e2])
  refine ⟨?_, ?_, ?_⟩
  · intro id' x' y' hx' hy'
    rw [hw] at hx'
    rw [hh] at hy'
    by_cases hid : id' = id
    · subst hid
      show m2.objects.lookup id' = _ ↔ _
      rw [hobj, lookup_insert_self]
      by_cases hcell : (x', y') = (x, y)
      · rw [Prod.mk.injEq] at hcell
        obtain ⟨hc1, hc2⟩ := hcell
        subst hc1
        subst hc2
        rw [ht2self]
        exact ⟨fun _ => Or.inl rfl, fun _ => rfl⟩
      · constructor
        · intro hsome
          obtain ⟨he1, he2⟩ := Position.mk.injEq .. ▸ Option.some.inj hsome
          exact absurd (show (x', y') = (x, y) by rw [← he1, ← he2]) hcell
        · intro href
          rw [ht2ne x' y' hx' hcell] at href
          have hp := (hiff id' x' y' hx' hy').mpr href
          rw [hfresh] at hp
          exact Option.noConfusion hp
    · show m2.objects.lookup id' = _ ↔ _
      rw [hobj, lookup_insert_ne _ _ _ _ hid]
      by_cases hcell : (x', y') = (x, y)
      · rw [Prod.mk.injEq] at hcell
        obtain ⟨hc1, hc2⟩ := hcell
        subst hc1
        subst hc2
        have hold := hiff id' x' y' hx' hy'
        rw [htm, hbfree] at hold
        rw [ht2self]
        rw [show (m.objects.lookup id' = some ⟨x', y'⟩) ↔ _ from hold]
        constructor
        · rintro (hno | hit)
          · exact Option.noConfusion hno
          · exact Or.inr hit
        · rintro (hso | hit)
          · exact absurd (Option.some.inj hso) (fun he => hid he.symm)
          · exact Or.inr hit
      · rw [ht2ne x' y' hx' hcell]
        exact hiff id' x' y' hx' hy'
  · intro id' p hp
    rw [show m2.get_position id' = m2.objects.lookup id' from rfl, hobj] at hp
    by_cases hid : id' = id
    · subst hid
      rw [lookup_insert_self] at hp
      cases hp
      rw [hw, hh]
      exact ⟨hx, hy⟩
    · rw [lookup_insert_ne _ _ _ _ hid] at hp
      rw [hw, hh]
      exact hbnd id' p hp
  · intro id' x' y' hx' hy'
    rw [hw] at hx'
    rw [hh] at hy'
    by_cases hcell : (x', y') = (x, y)
    · rw [Prod.mk.injEq] at hcell
      obtain ⟨hc1, hc2⟩ := hcell
      subst hc1
      subst hc2
      rw [ht2self]
      rintro ⟨hb, hi⟩
      have hidq := Option.some.inj hb
      subst hidq
      have hp : m.get_position id = some ⟨x', y'⟩ :=
        (hiff id x' y' hx' hy').mpr (Or.inr (by rw [htm]; exact hi))
      rw [hfresh] at hp
      exact Option.noConfusion hp
    · rw [ht2ne x' y' hx' hcell]
      exact hdup id' x' y' hx' hy'

theorem inv_place_item (m m2 : GameMap) (id x y : Nat)
    (hx : x < m.width) (hy : y < m.height)
    (hfresh : m.get_position id = none) (hinv : MapInv m)
    (h : m.place_item id x y = some m2) : MapInv m2 := by
  obtain ⟨hiff, hbnd, hdup⟩ := hinv
  obtain ⟨t, hget, hwalk, hifree, hw, hh, hobj, htiles⟩ := place_item_parts m m2 id x y h
  have hidx : coords_to_idx x y m.width < m.tiles.length := (List.get?_eq_some.mp hget).1
  have htm : m.tileAt x y = t := getD_of_get? _ _ _ _ hget
  have ht2self : m2.tileAt x y = { t with item := some id } := by
    unfold GameMap.tileAt
    rw [htiles, hw]
    exact getD_set_self' _ _ _ _ hidx
  have ht2ne : ∀ x' y', x' < m.width → (x', y') ≠ (x, y) → m2.tileAt x' y' = m.tileAt x' y' := by
    intro x' y' hx' hne
    unfold GameMap.tileAt
    rw [htiles, hw]
    refine getD_set_ne' _ _ _ _ _ ?_
    intro heq
    obtain ⟨e1, e2⟩ := coords_to_idx_inj m.width x y x' y' hx hx' heq
    exact hne (by rw [e1, e2])
  refine ⟨?_, ?_, ?_⟩
  · intro id' x' y' hx' hy'
    rw [hw] at hx'
    rw [hh] at hy'
    by_cases hid : id' = id
    · subst hid
      show m2.objects.lookup id' = _ ↔ _
      rw [hobj, lookup_insert_self]
      by_cases hcell : (x', y') = (x, y)
      · rw [Prod.mk.injEq] at hcell
        obtain ⟨hc1, hc2⟩ := hcell
        subst hc1
        subst hc2
        rw [ht2self]
        exact ⟨fun _ => Or.inr rfl, fun _ => rfl⟩
      · constructor
        · intro hsome
          obtain ⟨he1, he2⟩ := Position.mk.injEq .. ▸ Option.some.inj hsome
          exact absurd (show (x', y') = (x, y) by rw [← he1, ← he2]) hcell
        · intro href
          rw [ht2ne x' y' hx' hcell] at href
          have hp := (hiff id' x' y' hx' hy').mpr href
          rw [hfresh] at hp
          exact Option.noConfusion hp
    · show m2.objects.lookup id' = _ ↔ _
      rw [hobj, lookup_insert_ne _ _ _ _ hid]
      by_cases hcell : (x', y') = (x, y)
      · rw [Prod.mk.injEq] at hcell
        obtain ⟨hc1, hc2⟩ := hcell
        subst hc1
        subst hc2
        have hold := hiff id' x' y' hx' hy'
        rw [htm, hifree] at hold
        rw [ht2self]
        rw [show (m.objects.lookup id' = some ⟨x', y'⟩) ↔ _ from hold]
        constructor
        · rintro (hbl | hno)
          · exact Or.inl hbl
          · exact Option.noConfusion hno
        · rintro (hbl | hso)
          · exact Or.inl hbl
          · exact absurd (Option.some.inj hso) (fun he => hid he.symm)
      · rw [ht2ne x' y' hx' hcell]
        exact hiff id' x' y' hx' hy'
  · intro id' p hp
    rw [show m2.get_position id' = m2.objects.lookup id' from rfl, hobj] at hp
    by_cases hid : id' = id
    · subst hid
      rw [lookup_insert_self] at hp
      cases hp
      rw [hw, hh]
      exact ⟨hx, hy⟩
    · rw [lookup_insert_ne _ _ _ _ hid] at hp
      rw [hw, hh]
      exact hbnd id' p hp
  · intro id' x' y' hx' hy'
    rw [hw] at hx'
    rw [hh] at hy'
    by_cases hcell : (x', y') = (x, y)
    · rw [Prod.mk.injEq] at hcell
      obtain ⟨hc1, hc2⟩ := hcell
      subst hc1
      subst hc2
      rw [ht2self]
      rintro ⟨hb, hi⟩
      have hidq := Option.some.inj hi
      subst hidq
      have hp : m.get_position id = some ⟨x', y'⟩ :=
        (hiff id x' y' hx' hy').mpr (Or.inl (by rw [htm]; exact hb))
      rw [hfresh] at hp
      exact Option.noConfusion hp
    · rw [ht2ne x' y' hx' hcell]
      exact hdup id' x' y' hx' hy'

theorem inv_remove_blocker (m : GameMap) (pr : GameMap × Nat) (x y : Nat)
    (hx : x < m.width) (hy : y < m.height) (hinv : MapInv m)
    (h : m.remove_blocker x y = some pr) : MapInv pr.1 := by
  obtain ⟨hiff, hbnd, hdup⟩ := hinv
  obtain ⟨t, hget, hbl, hw, hh, hobj, htiles⟩ := remove_blocker_parts m pr x y h
  have hidx : coords_to_idx x y m.width < m.tiles.length := (List.get?_eq_some.mp hget).1
  have htm : m.tileAt x y = t := getD_of_get? _ _ _ _ hget
  have ht2self : pr.1.tileAt x y = { t with blocker := none } := by
    unfold GameMap.tileAt
    rw [htiles, hw]
    exact getD_set_self' _ _ _ _ hidx
  have ht2ne : ∀ x' y', x' < m.width → (x', y') ≠ (x, y) →
      pr.1.tileAt x' y' = m.tileAt x' y' := by
    intro x' y' hx' hne
    unfold GameMap.tileAt
    rw [htiles, hw]
    refine getD_set_ne' _ _ _ _ _ ?_
    intro heq
    obtain ⟨e1, e2⟩ := coords_to_idx_inj m.width x y x' y' hx hx' heq
    exact hne (by rw [e1, e2])
  have hpos : m.get_position pr.2 = some ⟨x, y⟩ :=
    (hiff pr.2 x y hx hy).mpr (Or.inl (by rw [htm]; exact hbl))
  refine ⟨?_, ?_, ?_⟩
  · intro id' x' y' hx' hy'
    rw [hw] at hx'
    rw [hh] at hy'
    by_cases hid : id' = pr.2
    · subst hid
      show pr.1.objects.lookup pr.2 = _ ↔ _
      rw [hobj, lookup_remove_self]
      constructor
      · intro hno
        exact Option.noConfusion hno
      · intro href
        exfalso
        by_cases hcell : (x', y') = (x, y)
        · rw [Prod.mk.injEq] at hcell
          obtain ⟨hc1, hc2⟩ := hcell
          subst hc1
          subst hc2
          rw [ht2self] at href
          rcases href with hno | hit
          · exact Option.noConfusion hno
          · exact hdup pr.2 x' y' hx' hy' ⟨by rw [htm]; exact hbl, by rw [htm]; exact hit⟩
        · rw [ht2ne x' y' hx' hcell] at href
          have hp := (hiff pr.2 x' y' hx' hy').mpr href
          rw [hpos] at hp
          obtain ⟨he1, he2⟩ := Position.mk.injEq .. ▸ Option.some.inj hp
          exact hcell (by rw [← he1, ← he2])
    · show pr.1.objects.lookup id' = _ ↔ _
      rw [hobj, lookup_remove_ne _ _ _ hid]
      by_cases hcell : (x', y') = (x, y)
      · rw [Prod.mk.injEq] at hcell
        obtain ⟨hc1, hc2⟩ := hcell
        subst hc1
        subst hc2
        have hold := hiff id' x' y' hx' hy'
        rw [htm, hbl] at hold
        rw [ht2self]
        rw [show (m.objects.lookup id' = some ⟨x', y'⟩) ↔ _ from hold]
        constructor
        · rintro (hro | hit)
          · exact absurd (Option.some.inj hro) (fun he => hid he.symm)
          · exact Or.inr hit
        · rintro (hno | hit)
          · exact Option.noConfusion hno
          · exact Or.inr hit
      · rw [ht2ne x' y' hx' hcell]
        exact hiff id' x' y' hx' hy'
  · intro id' p hp
    rw [show pr.1.get_position id' = pr.1.objects.lookup id' from rfl, hobj] at hp
    by_cases hid : id' = pr.2
    · subst hid
      rw [lookup_remove_self] at hp
      exact Option.noConfusion hp
    · rw [lookup_remove_ne _ _ _ hid] at hp
      rw [hw, hh]
      exact hbnd id' p hp
  · intro id' x' y' hx' hy'
    rw [hw] at hx'
    rw [hh] at hy'
    by_cases hcell : (x', y') = (x, y)
    · rw [Prod.mk.injEq] at hcell
      obtain ⟨hc1, hc2⟩ := hcell
      subst hc1
      subst hc2
      rw [ht2self]
      rintro ⟨hno, _⟩
      exact Option.noConfusion hno
    · rw [ht2ne x' y' hx' hcell]
      exact hdup id' x' y' hx' hy'

theorem inv_remove_item (m : GameMap) (pr : GameMap × Nat) (x y : Nat)
    (hx : x < m.width) (hy : y < m.height) (hinv : MapInv m)
    (h : m.remove_item x y = some pr) : MapInv pr.1 := by
  obtain ⟨hiff, hbnd, hdup⟩ := hinv
  obtain ⟨t, hget, hit, hw, hh, hobj, htiles⟩ := remove_item_parts m pr x y h
  have hidx : coords_to_idx x y m.width < m.tiles.length := (List.get?_eq_some.mp hget).1
  have htm : m.tileAt x y = t := getD_of_get? _ _ _ _ hget
  have ht2self : pr.1.tileAt x y = { t with item := none } := by
    unfold GameMap.tileAt
    rw [htiles, hw]
    exact getD_set_self' _ _ _ _ hidx
  have ht2ne : ∀ x' y', x' < m.width → (x', y') ≠ (x, y) →
      pr.1.tileAt x' y' = m.tileAt x' y' := by
    intro x' y' hx' hne
    unfold GameMap.tileAt
    rw [htiles, hw]
    refine getD_set_ne' _ _ _ _ _ ?_
    intro heq
    obtain ⟨e1, e2⟩ := coords_to_idx_inj m.width x y x' y' hx hx' heq
    exact hne (by rw [e1, e2])
  have hpos : m.get_position pr.2 = some ⟨x, y⟩ :=
    (hiff pr.2 x y hx hy).mpr (Or.inr (by rw [htm]; exact hit))
  refine ⟨?_, ?_, ?_⟩
  · intro id' x' y' hx' hy'
    rw [hw] at hx'
    rw [hh] at hy'
    by_cases hid : id' = pr.2
    · subst hid
      show pr.1.objects.lookup pr.2 = _ ↔ _
      rw [hobj, lookup_remove_self]
      constructor
      · intro hno
        exact Option.noConfusion hno
      · intro href
        exfalso
        by_cases hcell : (x', y') = (x, y)
        · rw [Prod.mk.injEq] at hcell
          obtain ⟨hc1, hc2⟩ := hcell
          subst hc1
          subst hc2
          rw [ht2self] at href
          rcases href with hbl | hno
          · exact hdup pr.2 x' y' hx' hy' ⟨by rw [htm]; exact hbl, by rw [htm]; exact hit⟩
          · exact Option.noConfusion hno
        · rw [ht2ne x' y' hx' hcell] at href
          have hp := (hiff pr.2 x' y' hx' hy').mpr href
          rw [hpos] at hp
          obtain ⟨he1, he2⟩ := Position.mk.injEq .. ▸ Option.some.inj hp
          exact hcell (by rw [← he1, ← he2])
    · show pr.1.objects.lookup id' = _ ↔ _
      rw [hobj, lookup_remove_ne _ _ _ hid]
      by_cases hcell : (x', y') = (x, y)
      · rw [Prod.mk.injEq] at hcell
        obtain ⟨hc1, hc2⟩ := hcell
        subst hc1
        subst hc2
        have hold := hiff id' x' y' hx' hy'
        rw [htm, hit] at hold
        rw [ht2self]
        rw [show (m.objects.lookup id' = some ⟨x', y'⟩) ↔ _ from hold]
        constructor
        · rintro (hbl | hro)
          · exact Or.inl hbl
          · exact absurd (Option.some.inj hro) (fun he => hid he.symm)
        · rintro (hbl | hno)
          · exact Or.inl hbl
          · exact Option.noConfusion hno
      · rw [ht2ne x' y' hx' hcell]
        exact hiff id' x' y' hx' hy'
  · intro id' p hp
    rw [show pr.1.get_position id' = pr.1.objects.lookup id' from rfl, hobj] at hp
    by_cases hid : id' = pr.2
    · subst hid
      rw [lookup_remove_self] at hp
      exact Option.noConfusion hp
    · rw [lookup_remove_ne _ _ _ hid] at hp
      rw [hw, hh]
      exact hbnd id' p hp
  · intro id' x' y' hx' hy'
    rw [hw] at hx'
    rw [hh] at hy'
    by_cases hcell : (x', y') = (x, y)
    · rw [Prod.mk.injEq] at hcell
      obtain ⟨hc1, hc2⟩ := hcell
      subst hc1
      subst hc2
      rw [ht2self]
      rintro ⟨_, hno⟩
      exact Option.noConfusion hno
    · rw [ht2ne x' y' hx' hcell]
      exact hdup id' x' y' hx' hy'

theorem toU16_lt_of_lt_toI16 (i : Int) (n : Nat) (h0 : 0 ≤ i) (hlt : i < toI16 n) :
    toU16 i < n := by
  unfold toI16 at hlt
  unfold toU16
  have h1 : (n % 65536 : Nat) ≤ n := Nat.mod_le n 65536
  have h2 : (n % 65536 : Nat) < 65536 := Nat.mod_lt _ (by norm_num)
  split at hlt <;> omega

theorem bfsExpand_queue_mem (m : GameMap) (dirs : List (Int × Int)) (cur : Nat × Nat) :
    ∀ (vq : Finset (Fin 65536 × Fin 65536) × List (Nat × Nat)) (c : Nat × Nat),
      c ∈ (bfsExpand m dirs cur vq).2 →
      c ∈ vq.2 ∨ (c.1 < m.width ∧ c.2 < m.height) := by
  induction dirs with
  | nil =>
    intro vq c hc
    exact Or.inl hc
  | cons d rest ih =>
    intro vq c hc
    rw [bfsExpand] at hc
    rcases ih _ c hc with hin | hb
    · by_cases hib : m.in_bounds (toI16 cur.1 + d.1) (toI16 cur.2 + d.2)
      · rw [if_pos hib] at hin
        by_cases hmem : vkey (toU16 (toI16 cur.1 + d.1), toU16 (toI16 cur.2 + d.2)) ∈ vq.1
        · rw [if_pos hmem] at hin
          exact Or.inl hin
        · rw [if_neg hmem] at hin
          rcases List.mem_append.mp hin with h1 | h1
          · exact Or.inl h1
          · right
            have hcc : c = (toU16 (toI16 cur.1 + d.1), toU16 (toI16 cur.2 + d.2)) := by
              simpa using h1
            subst hcc
            simp only [GameMap.in_bounds, Bool.and_eq_true, decide_eq_true_eq] at hib
            exact ⟨toU16_lt_of_lt_toI16 _ _ hib.1.1.1 hib.1.1.2,
              toU16_lt_of_lt_toI16 _ _ hib.1.2 hib.2⟩
      · rw [if_neg hib] at hin
        exact Or.inl hin
    · exact Or.inr hb

theorem area_loop_result (m : GameMap) (id : Nat) (start : Nat × Nat)
    (shuffle : Nat → List (Int × Int)) (k : Nat)
    (visited : Finset (Fin 65536 × Fin 65536)) (queue : List (Nat × Nat)) :
    ∀ (m2 : GameMap) (res : Option Position),
      (∀ c ∈ queue, c.1 < m.width ∧ c.2 < m.height) →
      area_place_item_loop m id start shuffle k visited queue = some (m2, res) →
      (m2 = m ∧ res = none) ∨
        (∃ cx cy, cx < m.width ∧ cy < m.height ∧
          m.place_item id cx cy = some m2 ∧ res = some ⟨cx, cy⟩) := by
  refine area_place_item_loop.induct m id start shuffle
    (fun k visited queue => ∀ (m2 : GameMap) (res : Option Position),
      (∀ c ∈ queue, c.1 < m.width ∧ c.2 < m.height) →
      area_place_item_loop m id start shuffle k visited queue = some (m2, res) →
      (m2 = m ∧ res = none) ∨
        (∃ cx cy, cx < m.width ∧ cy < m.height ∧
          m.place_item id cx cy = some m2 ∧ res = some ⟨cx, cy⟩))
    ?_ ?_ ?_ ?_ ?_ ?_ ?_ k visited queue
  · intro k v m2 res _ heq
    unfold area_place_item_loop at heq
    cases heq
    exact Or.inl ⟨rfl, rfl⟩
  · intro k v cur rest hfar ih m2 res hb heq
    unfold area_place_item_loop at heq
    rw [if_pos hfar] at heq
    exact ih m2 res (fun c hc => hb c (List.mem_cons_of_mem _ hc)) heq
  · intro k v cur rest hfar hnone m2 res hb heq
    unfold area_place_item_loop at heq
    rw [if_neg hfar, hnone] at heq
    exact Option.noConfusion heq
  · intro k v cur rest hfar t hsome hnw ih m2 res hb heq
    unfold area_place_item_loop at heq
    rw [if_neg hfar, hsome] at heq
    dsimp only at heq
    rw [if_pos hnw] at heq
    exact ih m2 res (fun c hc => hb c (List.mem_cons_of_mem _ hc)) heq
  · intro k v cur rest hfar t hsome hnw hfree m2p hplace m2 res hb heq
    unfold area_place_item_loop at heq
    rw [if_neg hfar, hsome] at heq
    dsimp only at heq
    rw [if_neg hnw, if_pos hfree, hplace] at heq
    cases heq
    exact Or.inr ⟨cur.1, cur.2, (hb cur (List.mem_cons_self _ _)).1,
      (hb cur (List.mem_cons_self _ _)).2, hplace, rfl⟩
  · intro k v cur rest hfar t hsome hnw hfree hplace m2 res hb heq
    unfold area_place_item_loop at heq
    rw [if_neg hfar, hsome] at heq
    dsimp only at heq
    rw [if_neg hnw, if_pos hfree, hplace] at heq
    exact Option.noConfusion heq
  · intro k v cur rest hfar t hsome hnw hfull ih m2 res hb heq
    unfold area_place_item_loop at heq
    rw [if_neg hfar, hsome] at heq
    dsimp only at heq
    rw [if_neg hnw, if_neg hfull] at heq
    refine ih m2 res ?_ heq
    intro c hc
    rcases bfsExpand_queue_mem m (shuffle k) cur (v, rest) c hc with h1 | h1
    · exact hb c (List.mem_cons_of_mem _ h1)
    · exact h1

theorem applyOp_ok (m m2 : GameMap) (op : MapOp) (hinv : MapInv m)
    (hb : op.inB m.width m.height = true) (h : applyOp m op = some m2) :
    MapInv m2 ∧ m2.width = m.width ∧ m2.height = m.height := by
  cases op with
  | placeBlocker id x y =>
    simp only [MapOp.inB, Bool.and_eq_true, decide_eq_true_eq] at hb
    unfold applyOp at h
    dsimp only at h
    by_cases hf : m.get_position id = none
    · rw [if_pos hf] at h
      obtain ⟨t, _, _, _, hw, hh, _, _⟩ := place_blocker_parts m m2 id x y h
      exact ⟨inv_place_blocker m m2 id x y hb.1 hb.2 hf hinv h, hw, hh⟩
    · rw [if_neg hf] at h
      exact Option.noConfusion h
  | placeItem id x y =>
    simp only [MapOp.inB, Bool.and_eq_true, decide_eq_true_eq] at hb
    unfold applyOp at h
    dsimp only at h
    by_cases hf : m.get_position id = none
    · rw [if_pos hf] at h
      obtain ⟨t, _, _, _, hw, hh, _, _⟩ := place_item_parts m m2 id x y h
      exact ⟨inv_place_item m m2 id x y hb.1 hb.2 hf hinv h, hw, hh⟩
    · rw [if_neg hf] at h
      exact Option.noConfusion h
  | removeBlocker x y =>
    simp only [MapOp.inB, Bool.and_eq_true, decide_eq_true_eq] at hb
    unfold applyOp at h
    dsimp only at h
    cases hr : m.remove_blocker x y with
    | none => rw [hr] at h; exact Option.noConfusion h
    | some pr =>
      rw [hr] at h
      rw [Option.map_some'] at h
      cases h
      obtain ⟨t, _, _, hw, hh, _, _⟩ := remove_blocker_parts m pr x y hr
      exact ⟨inv_remove_blocker m pr x y hb.1 hb.2 hinv hr, hw, hh⟩
  | removeItem x y =>
    simp only [MapOp.inB, Bool.and_eq_true, decide_eq_true_eq] at hb
    unfold applyOp at h
    dsimp only at h
    cases hr : m.remove_item x y with
    | none => rw [hr] at h; exact Option.noConfusion h
    | some pr =>
      rw [hr] at h
      rw [Option.map_some'] at h
      cases h
      obtain ⟨t, _, _, hw, hh, _, _⟩ := remove_item_parts m pr x y hr
      exact ⟨inv_remove_item m pr x y hb.1 hb.2 hinv hr, hw, hh⟩
  | areaPlaceItem x y id shuffle =>
    simp only [MapOp.inB, Bool.and_eq_true, decide_eq_true_eq] at hb
    unfold applyOp at h
    dsimp only at h
    by_cases hf : m.get_position id = none
    · rw [if_pos hf] at h
      cases hr : m.area_place_item x y id shuffle with
      | none => rw [hr] at h; exact Option.noConfusion h
      | some pr =>
        rw [hr] at h
        rw [Option.map_some'] at h
        cases h
        unfold GameMap.area_place_item at hr
        have hq : ∀ c ∈ [(x, y)], c.1 < m.width ∧ c.2 < m.height := by
          intro c hc
          rw [List.mem_singleton] at hc
          subst hc
          exact hb
        rcases area_loop_result m id (x, y) shuffle 0 {vkey (x, y)} [(x, y)] pr.1 pr.2 hq
            (by rw [← hr]) with ⟨hm, _⟩ | ⟨cx, cy, hcx, hcy, hpl, _⟩
        · rw [hm]
          exact ⟨hinv, rfl, rfl⟩
        · obtain ⟨t, _, _, _, hw, hh, _, _⟩ := place_item_parts m pr.1 id cx cy hpl
          exact ⟨inv_place_item m pr.1 id cx cy hcx hcy hf hinv hpl, hw, hh⟩
    · rw [if_neg hf] at h
      exact Option.noConfusion h

theorem applyOps_inv :
    ∀ (ops : List MapOp) (m m2 : GameMap), MapInv m →
      (∀ op ∈ ops, op.inB m.width m.height = true) →
      applyOps m ops = some m2 → MapInv m2 := by
  intro ops
  induction ops with
  | nil =>
    intro m m2 hinv _ h
    unfold applyOps at h
    cases h
    exact hinv
  | cons op rest ih =>
    intro m m2 hinv hb h
    unfold applyOps at h
    cases h1 : applyOp m op with
    | none => rw [h1] at h; exact Option.noConfusion h
    | some m1 =>
      rw [h1] at h
      dsimp only at h
      obtain ⟨hinv1, hw1, hh1⟩ := applyOp_ok m m1 op hinv (hb op (List.mem_cons_self _ _)) h1
      refine ih m1 m2 hinv1 ?_ h
      intro o ho
      rw [hw1, hh1]
      exact hb o (List.mem_cons_of_mem _ ho)

/-- C10 (amended): starting from any map satisfying the id↔tile consistency
invariant (which the all-wall fresh map does trivially, every placement on it
panicking; carved maps are the real baseline), after any sequence of
successful `place_blocker`, `place_item`, `remove_blocker`, `remove_item` and
`area_place_item` calls whose coordinate arguments are in bounds and in which
no id is placed while already present, `get_position id` returns
`some (x, y)` exactly when the in-bounds tile at `(x, y)` references `id` as
its blocker or its item.  The in-bounds restriction is necessary: the
placement functions never bounds-check, and an out-of-bounds coordinate
row-aliases another cell's flat index, breaking the equivalence. -/
theorem c10_consistency (m m2 : GameMap) (ops : List MapOp)
    (hinv : MapInv m)
    (hb : ∀ op ∈ ops, op.inB m.width m.height = true)
    (h : applyOps m ops = some m2) :
    ∀ id x y, x < m2.width → y < m2.height →
      (m2.get_position id = some ⟨x, y⟩ ↔
        ((m2.tileAt x y).blocker = some id ∨ (m2.tileAt x y).item = some id)) :=
  (applyOps_inv ops m m2 hinv hb h).1

theorem applyOps_cons (m : GameMap) (op : MapOp) (rest : List MapOp) :
    applyOps m (op :: rest) = match applyOp m op with
      | none => none
      | some m1 => applyOps m1 rest := rfl

theorem applyOps_singleton (m : GameMap) (op : MapOp) : applyOps m [op] = applyOp m op := by
  rw [applyOps_cons]
  cases applyOp m op with
  | none => rfl
  | some m1 => rfl

/-- C10 witness: a 2×2 floor map put through all five call kinds (a blocker
placed and removed, an item placed, and an `area_place_item` drop landing on
the freed start cell), with the consistency equivalence holding on the
result. -/
theorem c10_witness :
    (MapInv floorMap2 ∧
      (∀ op ∈ opsW, op.inB floorMap2.width floorMap2.height = true) ∧
      applyOps floorMap2 opsW = some mapW) ∧
    (∀ id x y, x < mapW.width → y < mapW.height →
      (mapW.get_position id = some ⟨x, y⟩ ↔
        ((mapW.tileAt x y).blocker = some id ∨ (mapW.tileAt x y).item = some id))) := by
  have hb : ∀ op ∈ opsW, op.inB floorMap2.width floorMap2.height = true := by decide
  have harea : map3.area_place_item 0 0 7 (fun _ => []) = some (mapW, some ⟨0, 0⟩) := by
    unfold GameMap.area_place_item
    unfold area_place_item_loop
    dsimp only
    rw [if_neg (by decide)]
    rfl
  have hstep : applyOp map3 (.areaPlaceItem 0 0 7 (fun _ => [])) = some mapW := by
    unfold applyOp
    dsimp only
    rw [if_pos (show map3.get_position 7 = none from rfl), harea]
    rfl
  have e1 : applyOp floorMap2 (.placeBlocker 5 0 0) = some map1 := rfl
  have e2 : applyOp map1 (.placeItem 6 1 1) = some map2 := rfl
  have e3 : applyOp map2 (.removeBlocker 0 0) = some map3 := rfl
  have happ : applyOps floorMap2 opsW = some mapW := by
    unfold opsW
    rw [applyOps_cons, e1]
    dsimp only
    rw [applyOps_cons, e2]
    dsimp only
    rw [applyOps_cons, e3]
    dsimp only
    rw [applyOps_singleton, hstep]
  exact ⟨⟨inv_floorMap2, hb, happ⟩,
    c10_consistency floorMap2 mapW opsW inv_floorMap2 hb happ⟩

/-- C10 counterexample: on a 2×2 floor map, `place_blocker` at the
out-of-bounds coordinate (2, 0) succeeds - the flat index 2 + 0·2 aliases the
in-bounds cell (0, 1) - and afterwards the tile at (0, 1) references id 7
while `get_position 7` answers (2, 0), so the claimed equivalence between the
id-to-position map and tile occupancy is broken. -/
theorem c10_counterexample :
    ∃ m1, floorMap2.place_blocker 7 2 0 = some m1 ∧
      m1.width = 2 ∧ m1.height = 2 ∧
      (m1.tileAt 0 1).blocker = some 7 ∧
      m1.get_position 7 = some ⟨2, 0⟩ ∧
      m1.get_position 7 ≠ some ⟨0, 1⟩ := by
  refine ⟨(floorMap2.place_blocker 7 2 0).getD floorMap2, rfl, rfl, rfl, rfl, rfl, ?_⟩
  decide

end Roguelike
